import Mathlib

/-!
# Verification of `goog.module.ModuleManager` (src/static/js/closure/goog/module/modulemanager.js)

This file gives a shallow embedding of the module load manager: the dependency
resolver `getNotYetLoadedTransitiveDepIds_`, the load scheduler
(`loadModule_`, `setLoaded`, `loadNextModule_`, `handleLoadError_`,
`handleLoadTimeout_`, `dispatchModuleLoadFailed_`), and the façade operations
(`load`, `execOnLoad`, `preloadModule`'s delayed body, `registerCallback`,
`setBatchModeEnabled`), together with theorems about them.

Modelling conventions:
* Module ids are `String`s, as in the JavaScript.
* The JavaScript worklist loop of `getNotYetLoadedTransitiveDepIds_` pops from
  the END of the `depIds` array and unshifts new dependencies at the FRONT.
  Here the worklist list is kept reversed relative to the JS array, so a JS
  pop-from-the-end is the head of the list and a JS unshift of `deps` at the
  front is an append of `deps.reverse` at the end.
* The loop is not structurally recursive (the worklist can grow), so it takes
  explicit fuel and returns `none` when the fuel runs out; termination on
  acyclic graphs is then the statement that some fuel suffices.
* Side effects visible to collaborators (calls to the loader, firing of
  registered lifecycle/error callbacks, resolution/rejection of deferred
  handles, `window.setTimeout` scheduling) are recorded as an event list.
-/

namespace GoogModule

abbrev ModId := String

/-! ## The dependency resolver, over an abstract module graph

`getNotYetLoadedTransitiveDepIds_` only touches the module map through
`getModuleInfo(id).getDependencies()` and `getModuleInfo(id).isLoaded()`, so it
is embedded over two functions `deps : ModId → List ModId` and
`loaded : ModId → Bool`. -/

/-- The `while (depIds.length)` loop of `getNotYetLoadedTransitiveDepIds_`:
pop `depId` from the worklist; if it is not loaded, unshift it onto the
accumulator `ids` and prepend its dependencies to the worklist.  The worklist
is stored reversed relative to the JS array (see the header comment), and the
loop consumes one unit of fuel per iteration. -/
def depLoop (deps : ModId → List ModId) (loaded : ModId → Bool) :
    Nat → List ModId → List ModId → Option (List ModId)
  | 0, _, _ => none
  | _ + 1, [], ids => some ids
  | fuel + 1, depId :: rest, ids =>
    if loaded depId then depLoop deps loaded fuel rest ids
    else depLoop deps loaded fuel (rest ++ (deps depId).reverse) (depId :: ids)

/-- `goog.array.removeDuplicates`: one forward pass keeping the first
occurrence of each element (the Closure library implementation tracks a set of
already-seen values; `seen` is that set).  `goog/array.js` is not under
`src/`; this models its documented behaviour. -/
def removeDuplicatesAux : List ModId → List ModId → List ModId
  | _, [] => []
  | seen, x :: xs =>
    if x ∈ seen then removeDuplicatesAux seen xs
    else x :: removeDuplicatesAux (x :: seen) xs

/-- `goog.array.removeDuplicates` on a fresh seen-set. -/
def removeDuplicates (l : List ModId) : List ModId :=
  removeDuplicatesAux [] l

/-- `getNotYetLoadedTransitiveDepIds_(id)`: run the worklist loop starting
from `[id]` with the direct dependencies of `id` as the initial worklist, then
strip duplicates keeping the earliest occurrence. -/
def getNotYetLoadedTransitiveDepIds (deps : ModId → List ModId)
    (loaded : ModId → Bool) (fuel : Nat) (id : ModId) : Option (List ModId) :=
  (depLoop deps loaded fuel (deps id).reverse [id]).map removeDuplicates

/-- One dependency step restricted to not-yet-loaded targets: `b` is a direct
dependency of `a` and `b` is not loaded. -/
def UDep (deps : ModId → List ModId) (loaded : ModId → Bool)
    (a b : ModId) : Prop :=
  b ∈ deps a ∧ loaded b = false

/-- `id` transitively requires `x` through a chain of not-yet-loaded modules
(reflexive-transitive closure of `UDep`). -/
def UReach (deps : ModId → List ModId) (loaded : ModId → Bool)
    (a b : ModId) : Prop :=
  Relation.ReflTransGen (UDep deps loaded) a b

/-- Plain transitive dependence, ignoring loadedness: `b` is reachable from
`a` through dependency edges. -/
def Reaches (deps : ModId → List ModId) (a b : ModId) : Prop :=
  Relation.ReflTransGen (fun u v => v ∈ deps u) a b

/-- `rank` witnesses that the dependency graph is acyclic: every direct
dependency has strictly smaller rank.  Every finite acyclic dependency map
(such as the manager's `moduleInfoMap_`) admits such a rank (e.g. the longest
path length). -/
def AcyclicRank (deps : ModId → List ModId) (rank : ModId → Nat) : Prop :=
  ∀ n d, d ∈ deps n → rank d < rank n


/-- Weight of a module: one plus the total weight of its direct dependencies.
Well defined on rank-acyclic graphs (recursion on the rank); it bounds the
number of worklist iterations spent on the module and its dependency tree. -/
def depWeight (deps : ModId → List ModId) (rank : ModId → Nat)
    (hrk : AcyclicRank deps rank) (x : ModId) : Nat :=
  1 + ((deps x).attach.map (fun d => depWeight deps rank hrk d.1)).sum
termination_by rank x
decreasing_by exact hrk x d.1 d.2



/-! ### Concrete graphs used by the resolver claims -/

/-- Concrete three-module chain: `"C"` depends on `"B"`, `"B"` depends on
`"A"`, all other modules have no dependencies. -/
def chainDeps : ModId → List ModId := fun m =>
  if m = "C" then ["B"] else if m = "B" then ["A"] else []

/-- Rank function witnessing acyclicity of `chainDeps`. -/
def chainRank : ModId → Nat := fun m =>
  if m = "C" then 2 else if m = "B" then 1 else 0

/-- Loaded flags where only `"B"` is loaded. -/
def onlyBLoaded : ModId → Bool := fun m => m == "B"

/-- Loaded flags where nothing is loaded. -/
def noneLoaded : ModId → Bool := fun _ => false



/-! ## The module manager state machine

The remaining operations of `goog.module.ModuleManager` are embedded as
functions on an explicit state record.  Calls to external collaborators — the
loader, registered lifecycle/error callbacks, deferred handles, timers — are
recorded in an event list.  Operations return `none` where the JavaScript
would throw (`loadModule_` on an already-loaded module, field access on an
unconfigured module id) or where the resolver would need more fuel. -/

/-- `goog.module.ModuleManager.FailureType`. -/
inductive FailureType where
  | unauthorized
  | consecutiveFailures
  | timeout
  | oldCodeGone
  deriving DecidableEq, Repr

/-- `goog.module.ModuleManager.CallbackType`. -/
inductive CallbackType where
  | error
  | idle
  | active
  | userIdle
  | userActive
  deriving DecidableEq, Repr

/-- Externally observable effects of an operation, in order of occurrence.
Deferred handles and callback functions are identified by opaque `Nat`
tokens. -/
inductive Event where
  /-- `loader_.loadModules(ids, ...)` was invoked with this id list. -/
  | loadRequest (ids : List ModId)
  /-- A callback registered for lifecycle type `t` fired
  (`executeCallbacks_`). -/
  | lifecycle (t : CallbackType) (fn : Nat)
  /-- A callback registered for `CallbackType.ERROR` fired for module `mid`
  with the given cause (`dispatchModuleLoadFailed_`). -/
  | errorNotify (fn : Nat) (mid : ModId) (cause : FailureType)
  /-- A pending per-module callback or deferred handle fired with the module
  context (success path). -/
  | deferredDone (tok : Nat)
  /-- A pending per-module errback or deferred handle was rejected with the
  given cause. -/
  | deferredFail (tok : Nat) (cause : FailureType)
  /-- A callback was handed to `window.setTimeout` to run asynchronously. -/
  | scheduled (tok : Nat)
  deriving DecidableEq, Repr

/-- Modelled from the spec: `goog.module.ModuleInfo`
(goog/module/moduleinfo.js is not under `src/`).  Per §3 of the spec a module
record holds the declared dependency ids, the monotonic `loaded` flag, and the
pending callback / errback / early-callback lists, each entry firing at most
once before being discarded.  Pending entries are opaque `Nat` tokens. -/
structure ModuleInfo where
  deps : List ModId
  loaded : Bool
  callbacks : List Nat
  errbacks : List Nat
  earlyCallbacks : List Nat
  deriving DecidableEq, Repr

/-- A fresh module record as created by `setAllModuleInfo`. -/
def ModuleInfo.fresh (deps : List ModId) : ModuleInfo :=
  ⟨deps, false, [], [], []⟩

/-- The mutable state of `goog.module.ModuleManager`.  The JS `callbackMap_`
object keyed by the five callback types is represented by five lists; the
module map object is an association list. -/
structure ManagerState where
  moduleInfoMap : List (ModId × ModuleInfo)
  loadingModuleIds : List ModId
  requestedModuleIdsQueue : List ModId
  userInitiatedLoadingModuleIds : List ModId
  errorCbs : List Nat
  idleCbs : List Nat
  activeCbs : List Nat
  userIdleCbs : List Nat
  userActiveCbs : List Nat
  consecutiveFailures : Nat
  lastActive : Bool
  userLastActive : Bool
  batchModeEnabled : Bool
  nextToken : Nat
  deriving DecidableEq, Repr

/-- `callbackMap_[type]`. -/
def ManagerState.callbackMap (s : ManagerState) : CallbackType → List Nat
  | .error => s.errorCbs
  | .idle => s.idleCbs
  | .active => s.activeCbs
  | .userIdle => s.userIdleCbs
  | .userActive => s.userActiveCbs

/-- `moduleInfoMap_[id]` (`none` when the id was never configured). -/
def getInfo (s : ManagerState) (mid : ModId) : Option ModuleInfo :=
  (s.moduleInfoMap.find? (fun p => p.1 == mid)).map (·.2)

/-- Replace the record stored for `mid` (no-op on unconfigured ids). -/
def updateInfo (s : ManagerState) (mid : ModId) (i : ModuleInfo) :
    ManagerState :=
  { s with moduleInfoMap :=
      s.moduleInfoMap.map (fun p => if p.1 == mid then (p.1, i) else p) }

/-- `getModuleInfo(id).isLoaded()` (false on unconfigured ids). -/
def isLoaded (s : ManagerState) (mid : ModId) : Bool :=
  match getInfo s mid with
  | some i => i.loaded
  | none => false

/-- `getModuleInfo(id).getDependencies()` (empty on unconfigured ids). -/
def getDeps (s : ManagerState) (mid : ModId) : List ModId :=
  match getInfo s mid with
  | some i => i.deps
  | none => []

/-- `getNotYetLoadedTransitiveDepIds_` over the manager's module map. -/
def resolveIn (s : ManagerState) (fuel : Nat) (mid : ModId) :
    Option (List ModId) :=
  getNotYetLoadedTransitiveDepIds (getDeps s) (fun m => isLoaded s m) fuel mid

/-- `isModuleLoading(id)`: loading now, or queued waiting to load. -/
def isModuleLoading (s : ManagerState) (mid : ModId) : Bool :=
  s.loadingModuleIds.contains mid || s.requestedModuleIdsQueue.contains mid

/-- `isActive()`. -/
def ManagerState.isActive (s : ManagerState) : Bool :=
  !s.loadingModuleIds.isEmpty

/-- `isUserActive()`. -/
def ManagerState.isUserActive (s : ManagerState) : Bool :=
  !s.userInitiatedLoadingModuleIds.isEmpty

/-- `executeCallbacks_(type)`: fire every callback registered for `type`, in
registration order. -/
def executeCallbacks (s : ManagerState) (t : CallbackType) : List Event :=
  (s.callbackMap t).map (Event.lifecycle t)

/-- `dispatchActiveIdleChangeIfNeeded_()`: compare each flag with its stored
last value; on a difference fire the callbacks of the corresponding type and
flip the stored value. -/
def dispatchActiveIdleChangeIfNeeded (s : ManagerState) :
    ManagerState × List Event :=
  let active := s.isActive
  let step1 : ManagerState × List Event :=
    if active ≠ s.lastActive then
      ({ s with lastActive := active },
        executeCallbacks s (if active then .active else .idle))
    else (s, [])
  let s1 := step1.1
  let userActive := s1.isUserActive
  let step2 : ManagerState × List Event :=
    if userActive ≠ s1.userLastActive then
      ({ s1 with userLastActive := userActive },
        executeCallbacks s1 (if userActive then .userActive else .userIdle))
    else (s1, [])
  (step2.1, step1.2 ++ step2.2)

/-- `moduleInfo.registerCallback(fn)` (modelled from the spec, see
`ModuleInfo`): append a pending-callback token. -/
def registerCallbackOn (s : ManagerState) (mid : ModId) (tok : Nat) :
    Option ManagerState := do
  let i ← getInfo s mid
  some (updateInfo s mid { i with callbacks := i.callbacks ++ [tok] })

/-- `moduleInfo.registerErrback(fn)` (modelled from the spec, see
`ModuleInfo`): append a pending-errback token. -/
def registerErrbackOn (s : ManagerState) (mid : ModId) (tok : Nat) :
    Option ManagerState := do
  let i ← getInfo s mid
  some (updateInfo s mid { i with errbacks := i.errbacks ++ [tok] })

/-- `loadModule_(id, opt_isRetry)`: throws (`none`) when the module is
already loaded; resolves the not-yet-loaded transitive dependencies; when
batch mode is off and more than one id was resolved, dispatches only the
first and prepends the remainder to the queue; resets the failure counter on
non-retry loads; records the dispatched ids as loading; emits the active/idle
transition check and then the loader request. -/
def loadModule (fuel : Nat) (s : ManagerState) (mid : ModId)
    (isRetry : Bool) : Option (ManagerState × List Event) := do
  if isLoaded s mid then
    none
  else do
    let ids0 ← resolveIn s fuel mid
    let split : List ModId × ManagerState :=
      if !s.batchModeEnabled && ids0.length > 1 then
        (ids0.take 1,
          { s with requestedModuleIdsQueue :=
              ids0.drop 1 ++ s.requestedModuleIdsQueue })
      else (ids0, s)
    let ids := split.1
    let s1 := split.2
    let s2 := if !isRetry then { s1 with consecutiveFailures := 0 } else s1
    let s3 := { s2 with loadingModuleIds := ids }
    let d := dispatchActiveIdleChangeIfNeeded s3
    some (d.1, d.2 ++ [Event.loadRequest ids])

/-- `loadModuleOrEnqueue_(id)`: dispatch immediately when nothing is loading,
otherwise push onto the queue. -/
def loadModuleOrEnqueue (fuel : Nat) (s : ManagerState) (mid : ModId) :
    Option (ManagerState × List Event) :=
  if s.loadingModuleIds.isEmpty then
    loadModule fuel s mid false
  else
    let s1 := { s with requestedModuleIdsQueue :=
      s.requestedModuleIdsQueue ++ [mid] }
    let d := dispatchActiveIdleChangeIfNeeded s1
    some (d.1, d.2)

/-- `loadNextModule_()`, recursing over the queue: shift ids off the queue,
skipping already-loaded ones, and dispatch the first not-loaded one; when the
queue is exhausted just run the active/idle check. -/
def loadNextAux (fuel : Nat) (s : ManagerState) :
    List ModId → Option (ManagerState × List Event)
  | [] =>
    let d := dispatchActiveIdleChangeIfNeeded
      { s with requestedModuleIdsQueue := [] }
    some (d.1, d.2)
  | nextId :: rest =>
    if isLoaded s nextId then loadNextAux fuel s rest
    else loadModule fuel { s with requestedModuleIdsQueue := rest } nextId false

/-- `loadNextModule_()`. -/
def loadNextModule (fuel : Nat) (s : ManagerState) :
    Option (ManagerState × List Event) :=
  loadNextAux fuel s s.requestedModuleIdsQueue

/-- `setLoaded(id)`: remove the id from the user-initiated and loading lists
(`goog.array.remove` deletes the first occurrence), run the module record's
`onLoad` (mark loaded, fire the early then the pending callbacks, discard the
pending lists — modelled from the spec, see `ModuleInfo`), advance to the
next queued module once the whole batch has completed, and run the
active/idle check.  `none` when the id was never configured (the JS would
crash on `moduleInfoMap_[id].onLoad`). -/
def setLoaded (fuel : Nat) (s : ManagerState) (mid : ModId) :
    Option (ManagerState × List Event) := do
  let s1 := { s with
    userInitiatedLoadingModuleIds :=
      s.userInitiatedLoadingModuleIds.erase mid,
    loadingModuleIds := s.loadingModuleIds.erase mid }
  let i ← getInfo s1 mid
  let s2 := updateInfo s1 mid
    { i with
      loaded := true
      callbacks := []
      errbacks := []
      earlyCallbacks := [] }
  let evCb := i.earlyCallbacks.map Event.deferredDone
    ++ i.callbacks.map Event.deferredDone
  if s2.loadingModuleIds.isEmpty then do
    let (s3, ev2) ← loadNextModule fuel s2
    let d := dispatchActiveIdleChangeIfNeeded s3
    some (d.1, evCb ++ ev2 ++ d.2)
  else
    let d := dispatchActiveIdleChangeIfNeeded s2
    some (d.1, evCb ++ d.2)

/-- The `goog.array.filter` step of `dispatchModuleLoadFailed_`: keep the
queued ids whose resolved not-yet-loaded transitive dependency ids contain
the failed id (when there is one; `contains(_, undefined)` is false).  The
resolver runs for every queued id, so the whole computation needs fuel. -/
def filterDependents (fuel : Nat) (s : ManagerState) (idOpt : Option ModId) :
    List ModId → Option (List ModId)
  | [] => some []
  | q :: qs => do
    let res ← resolveIn s fuel q
    let tail ← filterDependents fuel s idOpt qs
    let hit : Bool := match idOpt with
      | some fid => res.contains fid
      | none => false
    some (if hit then q :: tail else tail)

/-- `goog.array.insert`: append if not already present (goog/array.js is not
under `src/`; this is its documented behaviour). -/
def googInsert (l : List ModId) (a : ModId) : List ModId :=
  if a ∈ l then l else l ++ [a]

/-- One iteration of the cancellation loop of `dispatchModuleLoadFailed_`:
`goog.array.remove` the id from the queue and from the user-initiated list
(first occurrences). -/
def cancelRemove (st : ManagerState) (c : ModId) : ManagerState :=
  { st with
    requestedModuleIdsQueue := st.requestedModuleIdsQueue.erase c,
    userInitiatedLoadingModuleIds :=
      st.userInitiatedLoadingModuleIds.erase c }

/-- Erase the first occurrence of each of `cs` from `l`, in order. -/
def eraseAll (l : List ModId) : List ModId → List ModId
  | [] => l
  | c :: cs => eraseAll (l.erase c) cs

/-- The `moduleInfoMap_[id].onError(cause)` step of
`dispatchModuleLoadFailed_` (guarded by `if (moduleInfoMap_[id])`): fire and
discard the failed module's pending errbacks (`ModuleInfo.onError` is
modelled from the spec, see `ModuleInfo`). -/
def onErrorInfo (s2 : ManagerState) (idOpt : Option ModId)
    (cause : FailureType) : ManagerState × List Event :=
  match idOpt with
  | some fid =>
    match getInfo s2 fid with
    | some i =>
      (updateInfo s2 fid { i with callbacks := [], errbacks := [] },
        i.errbacks.map (fun tok => Event.deferredFail tok cause))
    | none => (s2, [])
  | none => (s2, [])

/-- `dispatchModuleLoadFailed_(cause)`: pop the explicitly requested id (last
of `loadingModuleIds_`) and clear the rest of the batch; cancel every queued
id whose resolved dependency ids contain the failed id, plus the failed id
itself; remove the cancelled ids from the queue and the user-initiated list
(first occurrences); fire every registered ERROR callback for every cancelled
id (callback-major order, as in the JS nested loops); fire the failed id's
own pending errbacks (`onErrorInfo`); run the active/idle check. -/
def dispatchModuleLoadFailed (fuel : Nat) (s : ManagerState)
    (cause : FailureType) : Option (ManagerState × List Event) := do
  let idOpt := s.loadingModuleIds.getLast?
  let s1 := { s with loadingModuleIds := [] }
  let dependents ← filterDependents fuel s1 idOpt s1.requestedModuleIdsQueue
  let idsToCancel := match idOpt with
    | some fid => googInsert dependents fid
    | none => dependents
  let s2 := idsToCancel.foldl cancelRemove s1
  let evErr := s2.errorCbs.flatMap (fun fn =>
    idsToCancel.map (fun c => Event.errorNotify fn c cause))
  let errStep := onErrorInfo s2 idOpt cause
  let d := dispatchActiveIdleChangeIfNeeded errStep.1
  some (d.1, evErr ++ errStep.2 ++ d.2)

/-- `handleLoadError_(status)`: bump the failure counter; 401 cancels and
clears the whole queue; 410 reports the module gone and advances; three
consecutive failures report and advance; otherwise retry the requested id
(the last entry of `loadingModuleIds_`) through the resolution path with the
retry flag.  `none` for the retry path when `loadingModuleIds_` is empty (the
JS would call `loadModule_(undefined)` and crash). -/
def handleLoadError (fuel : Nat) (s : ManagerState) (status : Nat) :
    Option (ManagerState × List Event) := do
  let s0 := { s with consecutiveFailures := s.consecutiveFailures + 1 }
  if status = 401 then do
    let (s1, ev) ← dispatchModuleLoadFailed fuel s0 .unauthorized
    some ({ s1 with requestedModuleIdsQueue := [] }, ev)
  else if status = 410 then do
    let (s1, ev1) ← dispatchModuleLoadFailed fuel s0 .oldCodeGone
    let (s2, ev2) ← loadNextModule fuel s1
    some (s2, ev1 ++ ev2)
  else if s0.consecutiveFailures ≥ 3 then do
    let (s1, ev1) ← dispatchModuleLoadFailed fuel s0 .consecutiveFailures
    let (s2, ev2) ← loadNextModule fuel s1
    some (s2, ev1 ++ ev2)
  else
    match s0.loadingModuleIds.getLast? with
    | some mid => loadModule fuel { s0 with loadingModuleIds := [] } mid true
    | none => none

/-- `handleLoadTimeout_()`: always terminal for the current attempt. -/
def handleLoadTimeout (fuel : Nat) (s : ManagerState) :
    Option (ManagerState × List Event) := do
  let (s1, ev1) ← dispatchModuleLoadFailed fuel s .timeout
  let (s2, ev2) ← loadNextModule fuel s1
  some (s2, ev1 ++ ev2)

/-- `load(moduleId)`: create a deferred handle (a fresh token, registered as
both pending callback and pending errback); when the module is already
loaded, fire the handle with the module context right away (`d.callback` runs
synchronously inside `load`, modelled from the spec's data model for
deferreds since goog/async/deferred.js is not under `src/`); when the module
is already loading or queued, just attach; otherwise attach and initiate the
load.  Returns the handle token alongside the state and events. -/
def load (fuel : Nat) (s : ManagerState) (mid : ModId) :
    Option (ManagerState × List Event × Nat) := do
  let i ← getInfo s mid
  let d := s.nextToken
  let s0 := { s with nextToken := d + 1 }
  if i.loaded then
    some (s0, [Event.deferredDone d], d)
  else if isModuleLoading s0 mid then do
    let s1 ← registerCallbackOn s0 mid d
    let s2 ← registerErrbackOn s1 mid d
    some (s2, [], d)
  else do
    let s1 ← registerCallbackOn s0 mid d
    let s2 ← registerErrbackOn s1 mid d
    let (s3, ev) ← loadModuleOrEnqueue fuel s2 mid
    some (s3, ev, d)

/-- `execOnLoad(moduleId, fn, _, opt_noLoad, opt_userInitiated,
opt_preferSynchronous)`.  The callback wrapper is a fresh token.  On an
already-loaded module the wrapper runs synchronously when
`opt_preferSynchronous` is set and is otherwise handed to
`window.setTimeout`; on a loading/queued module it is attached (pushing the
id onto the user-initiated list when requested); otherwise it is attached and
a load is initiated unless `opt_noLoad` is set. -/
def execOnLoad (fuel : Nat) (s : ManagerState) (mid : ModId)
    (noLoad userInitiated preferSynchronous : Bool) :
    Option (ManagerState × List Event × Nat) := do
  let i ← getInfo s mid
  let w := s.nextToken
  let s0 := { s with nextToken := w + 1 }
  if i.loaded then
    if preferSynchronous then
      some (s0, [Event.deferredDone w], w)
    else
      some (s0, [Event.scheduled w], w)
  else if isModuleLoading s0 mid then do
    let s1 ← registerCallbackOn s0 mid w
    if userInitiated then
      let s2 := { s1 with userInitiatedLoadingModuleIds :=
        s1.userInitiatedLoadingModuleIds ++ [mid] }
      let d := dispatchActiveIdleChangeIfNeeded s2
      some (d.1, d.2, w)
    else
      some (s1, [], w)
  else do
    let s1 ← registerCallbackOn s0 mid w
    if noLoad then
      some (s1, [], w)
    else do
      let s2 := if userInitiated then
          { s1 with userInitiatedLoadingModuleIds :=
            s1.userInitiatedLoadingModuleIds ++ [mid] }
        else s1
      let (s3, ev) ← loadModuleOrEnqueue fuel s2 mid
      some (s3, ev, w)

/-- The delayed body of `preloadModule`
(`loadModuleOrEnqueueIfNotLoadedOrLoading_`), firing after the timer: on a
loaded module resolve the deferred immediately; otherwise attach the deferred
and initiate the load unless the module is already loading or queued. -/
def preloadFire (fuel : Nat) (s : ManagerState) (mid : ModId) :
    Option (ManagerState × List Event × Nat) := do
  let i ← getInfo s mid
  let d := s.nextToken
  let s0 := { s with nextToken := d + 1 }
  if i.loaded then
    some (s0, [Event.deferredDone d], d)
  else do
    let s1 ← registerCallbackOn s0 mid d
    let s2 ← registerErrbackOn s1 mid d
    if isModuleLoading s2 mid then
      some (s2, [], d)
    else do
      let (s3, ev) ← loadModuleOrEnqueue fuel s2 mid
      some (s3, ev, d)

/-- `registerCallback_(type, fn)`: append `fn` to the list for `type`. -/
def registerCallbackGlobal (s : ManagerState) (t : CallbackType) (fn : Nat) :
    ManagerState :=
  match t with
  | .error => { s with errorCbs := s.errorCbs ++ [fn] }
  | .idle => { s with idleCbs := s.idleCbs ++ [fn] }
  | .active => { s with activeCbs := s.activeCbs ++ [fn] }
  | .userIdle => { s with userIdleCbs := s.userIdleCbs ++ [fn] }
  | .userActive => { s with userActiveCbs := s.userActiveCbs ++ [fn] }

/-- External stimuli driving the manager. -/
inductive Stimulus where
  | load (mid : ModId)
  | execOnLoad (mid : ModId) (noLoad userInitiated preferSynchronous : Bool)
  | preloadFire (mid : ModId)
  | setLoaded (mid : ModId)
  | loadError (status : Nat)
  | loadTimeout
  | setBatchModeEnabled (b : Bool)
  | registerCallback (t : CallbackType) (fn : Nat)
  deriving DecidableEq, Repr

/-- One reaction of the manager to an external stimulus (returned handle
tokens are dropped; they are recoverable as the pre-state's `nextToken`). -/
def stepM (fuel : Nat) (stim : Stimulus) (s : ManagerState) :
    Option (ManagerState × List Event) :=
  match stim with
  | .load mid => (load fuel s mid).map (fun r => (r.1, r.2.1))
  | .execOnLoad mid noLoad userInitiated preferSynchronous =>
    (execOnLoad fuel s mid noLoad userInitiated preferSynchronous).map
      (fun r => (r.1, r.2.1))
  | .preloadFire mid => (preloadFire fuel s mid).map (fun r => (r.1, r.2.1))
  | .setLoaded mid => setLoaded fuel s mid
  | .loadError status => handleLoadError fuel s status
  | .loadTimeout => handleLoadTimeout fuel s
  | .setBatchModeEnabled b => some ({ s with batchModeEnabled := b }, [])
  | .registerCallback t fn => some (registerCallbackGlobal s t fn, [])

/-- Initial state of a freshly constructed manager after `setAllModuleInfo`:
every configured module starts unloaded with no pending callbacks, and all
scheduler state is empty. -/
def initState (infos : List (ModId × List ModId)) : ManagerState where
  moduleInfoMap := infos.map (fun p => (p.1, ModuleInfo.fresh p.2))
  loadingModuleIds := []
  requestedModuleIdsQueue := []
  userInitiatedLoadingModuleIds := []
  errorCbs := []
  idleCbs := []
  activeCbs := []
  userIdleCbs := []
  userActiveCbs := []
  consecutiveFailures := 0
  lastActive := false
  userLastActive := false
  batchModeEnabled := false
  nextToken := 0


/-- Run a list of stimuli in order, collecting each reaction's events. -/
def runStimuli (fuel : Nat) (s : ManagerState) :
    List Stimulus → Option (ManagerState × List (List Event))
  | [] => some (s, [])
  | stim :: rest => do
    let (s1, ev) ← stepM fuel stim s
    let (s2, evs) ← runStimuli fuel s1 rest
    some (s2, ev :: evs)

/-- Invariant used by the active/idle claim: the stored flags agree with the
recomputed ones. -/
def FlagsInv (s : ManagerState) : Prop :=
  s.lastActive = s.isActive ∧ s.userLastActive = s.isUserActive

/-- Invariant used by the coalescing claim: the in-flight batch is duplicate
free and none of it is loaded. -/
def LoadingInv (s : ManagerState) : Prop :=
  s.loadingModuleIds.Nodup ∧ ∀ x ∈ s.loadingModuleIds, isLoaded s x = false

/-- The stimuli claim C5 quantifies over: `load(id)` calls interleaved with
`setLoaded` notifications and batch-mode settings. -/
def Stimulus.isC5 : Stimulus → Prop
  | .load _ => True
  | .setLoaded _ => True
  | .setBatchModeEnabled _ => True
  | _ => False

/-- States reachable from a freshly configured manager by `load`,
`setLoaded` and `setBatchModeEnabled` stimuli. -/
inductive ReachableC5 (fuel : Nat) : ManagerState → Prop
  | init (infos : List (ModId × List ModId)) : ReachableC5 fuel (initState infos)
  | step {s s' : ManagerState} {stim : Stimulus} {ev : List Event} :
      ReachableC5 fuel s → stim.isC5 → stepM fuel stim s = some (s', ev) →
      ReachableC5 fuel s'

/-! ### Concrete scenario states -/

/-- C7 scenario configuration: `A` has no dependencies, `B` depends on `A`,
`C` depends on `B` (batch mode off in `initState`). -/
def c7init : ManagerState := initState [("A", []), ("B", ["A"]), ("C", ["B"])]

/-- C7 scenario with batch mode on. -/
def c7initBatch : ManagerState := { c7init with batchModeEnabled := true }

/-- C5 counterexample configuration: `X` and `C` have no dependencies, `B`
depends on `C`. -/
def c5init : ManagerState := initState [("X", []), ("B", ["C"]), ("C", [])]

/-- C5 counterexample: the state after `load("X")`, `load("B")`, `load("C")`
(X in flight, `B` and `C` queued). -/
def c5pre : ManagerState :=
  ((runStimuli 20 c5init [.load "X", .load "B", .load "C"]).map (·.1)).getD
    (initState [])

/-- C3 counterexample configuration: two independent leaf modules. -/
def c3init : ManagerState := initState [("F", []), ("X", [])]

/-- C3 counterexample: one error callback (token 7) registered, `F` in
flight, `X` queued. -/
def c3pre : ManagerState :=
  ((runStimuli 20 c3init
    [.registerCallback .error 7, .load "F", .load "X"]).map (·.1)).getD
    (initState [])

/-- C2/C4 scenario configuration: `A` depends on `B`. -/
def c4init : ManagerState := initState [("A", ["B"]), ("B", [])]

/-- C2/C4 scenario: one error callback (token 7) registered and `load("A")`
issued, so `B` is in flight, `A` is queued, and `A`'s deferred handle is
token 0. -/
def c4pre : ManagerState :=
  ((runStimuli 20 c4init [.registerCallback .error 7, .load "A"]).map
    (·.1)).getD (initState [])

/-- C2 counterexample configuration: `A` depends on `M`. -/
def c2init : ManagerState := initState [("A", ["M"]), ("M", [])]

/-- C2 counterexample: `M` in flight, then `execOnLoad("A")` marked
user-initiated twice, leaving `A` queued and listed twice in
`userInitiatedLoadingModuleIds_`. -/
def c2pre : ManagerState :=
  ((runStimuli 20 c2init
    [.load "M", .execOnLoad "A" false true false,
      .execOnLoad "A" false true false]).map (·.1)).getD (initState [])

/-- C9 counterexample state: a manager whose only module `X` is already
loaded. -/
def loadedXState : ManagerState :=
  { initState [("X", [])] with
    moduleInfoMap := [("X", ⟨[], true, [], [], []⟩)] }

/-- C2 counterexample: the resulting state and events of a 410 on `M` from
`c2pre`. -/
def c2post : ManagerState × List Event :=
  (handleLoadError 20 c2pre 410).getD (initState [], [])

/-- C2 witness: the terminal dispatch with cause `oldCodeGone` on `c4pre`. -/
def c2dpost : ManagerState × List Event :=
  (dispatchModuleLoadFailed 20 c4pre .oldCodeGone).getD (initState [], [])

/-- C3: the resulting state and events of a 401 from `c3pre`. -/
def c3post : ManagerState × List Event :=
  (handleLoadError 20 c3pre 401).getD (initState [], [])

/-- C4: result of the initial `load("A")` on the `A → B` configuration. -/
def c4loadRes : ManagerState × List Event × Nat :=
  (load 20 c4init "A").getD (initState [], [], 0)

/-- C4 counterexample: the resulting state and events of a 410 on `B` from
`c4pre` (where `A`, holder of handle token 0, is queued). -/
def c4post : ManagerState × List Event :=
  (handleLoadError 20 c4pre 410).getD (initState [], [])

/-- C4 witness: a single module `F` loading with handle token 0 attached. -/
def c4fpre : ManagerState :=
  ((runStimuli 20 (initState [("F", [])]) [.load "F"]).map (·.1)).getD
    (initState [])

/-- C4 witness: a timeout-cause dispatch on `c4fpre`. -/
def c4fpost : ManagerState × List Event :=
  (dispatchModuleLoadFailed 20 c4fpre .timeout).getD (initState [], [])

/-- C5: the state after the single stimulus `load("X")` on `c5init`. -/
def c5mid1 : ManagerState :=
  ((runStimuli 20 c5init [.load "X"]).map (·.1)).getD (initState [])

/-- C5: the state after `load("X")`, `load("B")` on `c5init`. -/
def c5mid2 : ManagerState :=
  ((runStimuli 20 c5init [.load "X", .load "B"]).map (·.1)).getD
    (initState [])

/-- C5 counterexample: the state and events of `setLoaded("X")` on `c5pre`. -/
def c5post : ManagerState × List Event :=
  (setLoaded 20 c5pre "X").getD (initState [], [])

/-- C6 scenario: error callback 7 registered, `X` loading, the independent
`Y` queued behind it (no failures yet). -/
def c6pre1 : ManagerState :=
  ((runStimuli 20 (initState [("X", []), ("Y", [])])
    [.registerCallback .error 7, .load "X", .load "Y"]).map (·.1)).getD
    (initState [])

/-- C6 scenario: `c6pre1` after two transient 500 failures (two retries
dispatched, failure counter at 2, `X` loading again). -/
def c6pre3 : ManagerState :=
  ((runStimuli 20 c6pre1 [.loadError 500, .loadError 500]).map (·.1)).getD
    (initState [])

/-- C6: result of the first 500 failure (a retry below the threshold). -/
def c6post1 : ManagerState × List Event :=
  (handleLoadError 20 c6pre1 500).getD (initState [], [])

/-- C6: result of the third consecutive 500 failure. -/
def c6post3 : ManagerState × List Event :=
  (handleLoadError 20 c6pre3 500).getD (initState [], [])

/-- C7 witness: the direct `loadModule_("C")` call on the fresh chain
configuration with batch mode off. -/
def c7lm : ManagerState × List Event :=
  (loadModule 20 c7init "C" false).getD (initState [], [])

/-! ## Theorems -/

/-! ### Lemmas about the resolver -/

section ResolverLemmas

variable {deps : ModId → List ModId} {loaded : ModId → Bool} {rank : ModId → Nat}

theorem depLoop_mono {f : Nat} :
    ∀ {f' : Nat}, f ≤ f' → ∀ {W acc r : List ModId},
      depLoop deps loaded f W acc = some r →
      depLoop deps loaded f' W acc = some r := by
  induction f with
  | zero => intro f' _ W acc r h; simp [depLoop] at h
  | succ k ih =>
    intro f' hle W acc r h
    obtain ⟨k', rfl⟩ : ∃ k', f' = k' + 1 := ⟨f' - 1, by omega⟩
    match W with
    | [] => simpa [depLoop] using h
    | x :: rest =>
      simp only [depLoop] at h ⊢
      by_cases hl : loaded x = true
      · rw [if_pos hl] at h ⊢
        exact ih (by omega) h
      · rw [if_neg hl] at h ⊢
        exact ih (by omega) h

/-- The endpoint of a nonempty-or-reflexive `UDep` chain starting at a
not-yet-loaded module is itself not yet loaded. -/
theorem UReach_not_loaded {a b : ModId} (ha : loaded a = false)
    (h : UReach deps loaded a b) : loaded b = false := by
  induction h with
  | refl => exact ha
  | tail _ hbc _ => exact hbc.2

theorem UReach_rank_le (hrk : AcyclicRank deps rank) {a b : ModId}
    (h : UReach deps loaded a b) : rank b ≤ rank a := by
  induction h with
  | refl => exact le_refl _
  | tail _ hbc ih => exact le_trans (le_of_lt (hrk _ _ hbc.1)) ih

theorem transGen_UDep_rank_lt (hrk : AcyclicRank deps rank) {a b : ModId}
    (h : Relation.TransGen (UDep deps loaded) a b) : rank b < rank a := by
  induction h with
  | single hab => exact hrk _ _ hab.1
  | tail _ hbc ih => exact lt_trans (hrk _ _ hbc.1) ih

/-- Main invariant of the worklist loop.  If the loop terminates from state
`(W, acc)` with result `r`, then `r` prepends to `acc` a block `p` of popped
modules such that: every element of `p` is not loaded and is `UDep`-reachable
from a not-loaded worklist element (soundness); every not-loaded module
`UDep`-reachable from a not-loaded worklist element lands in `p`
(completeness); and every element of `p` appears in `r` strictly after the
first occurrence of each of its not-loaded direct dependencies (ordering;
positions are earliest occurrences because `List.indexOf` finds the first
one). -/
theorem depLoop_main {f : Nat} :
    ∀ {W acc r : List ModId}, depLoop deps loaded f W acc = some r →
    ∃ p, r = p ++ acc ∧
      (∀ z ∈ p, loaded z = false ∧
        ∃ w ∈ W, loaded w = false ∧ UReach deps loaded w z) ∧
      (∀ z, loaded z = false →
        (∃ w ∈ W, loaded w = false ∧ UReach deps loaded w z) → z ∈ p) ∧
      (∀ a b, a ∈ p → b ∈ deps a → loaded b = false →
        r.indexOf b < r.indexOf a) := by
  induction f with
  | zero => intro W acc r h; simp [depLoop] at h
  | succ k ih =>
    intro W acc r h
    match W with
    | [] =>
      simp only [depLoop, Option.some.injEq] at h
      subst h
      exact ⟨[], by simp, by simp, by simp, by simp⟩
    | x :: rest =>
      simp only [depLoop] at h
      by_cases hl : loaded x = true
      · rw [if_pos hl] at h
        obtain ⟨p, hp, hsound, hcompl, hord⟩ := ih h
        refine ⟨p, hp, ?_, ?_, hord⟩
        · intro z hz
          obtain ⟨hzl, w, hw, hwl, hwz⟩ := hsound z hz
          exact ⟨hzl, w, List.mem_cons_of_mem _ hw, hwl, hwz⟩
        · rintro z hzl ⟨w, hw, hwl, hwz⟩
          rcases List.mem_cons.1 hw with rfl | hw'
          · rw [hl] at hwl; cases hwl
          · exact hcompl z hzl ⟨w, hw', hwl, hwz⟩
      · rw [if_neg hl] at h
        have hlf : loaded x = false := by
          cases hx : loaded x
          · rfl
          · exact absurd hx hl
        obtain ⟨p', hp', hsound, hcompl, hord⟩ := ih h
        refine ⟨p' ++ [x], by rw [hp']; simp, ?_, ?_, ?_⟩
        · intro z hz
          rcases List.mem_append.1 hz with hz' | hz'
          · obtain ⟨hzl, w, hw, hwl, hwz⟩ := hsound z hz'
            rcases List.mem_append.1 hw with hw' | hw'
            · exact ⟨hzl, w, List.mem_cons_of_mem _ hw', hwl, hwz⟩
            · refine ⟨hzl, x, List.mem_cons_self .., hlf,
                Relation.ReflTransGen.head ⟨List.mem_reverse.1 hw', hwl⟩ hwz⟩
          · have hz'' : z = x := by simpa using hz'
            subst hz''
            exact ⟨hlf, z, List.mem_cons_self .., hlf, Relation.ReflTransGen.refl⟩
        · rintro z hzl ⟨w, hw, hwl, hwz⟩
          rcases List.mem_cons.1 hw with rfl | hw'
          · rcases Relation.ReflTransGen.cases_head hwz with rfl | ⟨b, hb, hbz⟩
            · exact List.mem_append.2 (Or.inr (by simp))
            · refine List.mem_append.2 (Or.inl (hcompl z hzl
                ⟨b, List.mem_append_right _ (List.mem_reverse.2 hb.1), hb.2, hbz⟩))
          · exact List.mem_append.2 (Or.inl (hcompl z hzl
              ⟨w, List.mem_append_left _ hw', hwl, hwz⟩))
        · intro a b ha hb hbl
          rcases List.mem_append.1 ha with ha' | ha'
          · exact hord a b ha' hb hbl
          · have hax : a = x := by simpa using ha'
            subst hax
            have hbp : b ∈ p' := hcompl b hbl
              ⟨b, List.mem_append_right _ (List.mem_reverse.2 hb), hbl,
                Relation.ReflTransGen.refl⟩
            by_cases hap : a ∈ p'
            · exact hord a b hap hb hbl
            · have h1 : r.indexOf b < p'.length := by
                rw [hp', List.indexOf_append_of_mem hbp]
                exact List.indexOf_lt_length.2 hbp
              have h2 : r.indexOf a = p'.length := by
                rw [hp', List.indexOf_append_of_not_mem hap]
                simp
              omega

theorem mem_removeDuplicatesAux {seen l : List ModId} {x : ModId} :
    x ∈ removeDuplicatesAux seen l ↔ x ∈ l ∧ x ∉ seen := by
  induction l generalizing seen with
  | nil => simp [removeDuplicatesAux]
  | cons h t ih =>
    simp only [removeDuplicatesAux]
    by_cases hh : h ∈ seen
    · rw [if_pos hh, ih]
      constructor
      · rintro ⟨hx, hs⟩; exact ⟨List.mem_cons_of_mem _ hx, hs⟩
      · rintro ⟨hx, hs⟩
        rcases List.mem_cons.1 hx with rfl | hx'
        · exact absurd hh hs
        · exact ⟨hx', hs⟩
    · rw [if_neg hh]
      constructor
      · intro hx
        rcases List.mem_cons.1 hx with rfl | hx'
        · exact ⟨List.mem_cons_self .., hh⟩
        · obtain ⟨hxt, hxs⟩ := ih.1 hx'
          exact ⟨List.mem_cons_of_mem _ hxt,
            fun hc => hxs (List.mem_cons_of_mem _ hc)⟩
      · rintro ⟨hx, hs⟩
        rcases List.mem_cons.1 hx with rfl | hx'
        · exact List.mem_cons_self ..
        · by_cases hxh : x = h
          · exact hxh ▸ List.mem_cons_self ..
          · refine List.mem_cons_of_mem _ (ih.2 ⟨hx', fun hc => ?_⟩)
            rcases List.mem_cons.1 hc with h1 | h1
            · exact hxh h1
            · exact hs h1

theorem mem_removeDuplicates {l : List ModId} {x : ModId} :
    x ∈ removeDuplicates l ↔ x ∈ l := by
  simp [removeDuplicates, mem_removeDuplicatesAux]

theorem nodup_removeDuplicatesAux {seen l : List ModId} :
    (removeDuplicatesAux seen l).Nodup := by
  induction l generalizing seen with
  | nil => simp [removeDuplicatesAux]
  | cons h t ih =>
    simp only [removeDuplicatesAux]
    split
    · exact ih
    · refine List.nodup_cons.2 ⟨fun hc => ?_, ih⟩
      exact (mem_removeDuplicatesAux.1 hc).2 (List.mem_cons_self ..)

theorem nodup_removeDuplicates {l : List ModId} : (removeDuplicates l).Nodup :=
  nodup_removeDuplicatesAux

theorem removeDuplicatesAux_append_last {seen l : List ModId} {a : ModId}
    (hl : a ∉ l) (hs : a ∉ seen) :
    removeDuplicatesAux seen (l ++ [a]) = removeDuplicatesAux seen l ++ [a] := by
  induction l generalizing seen with
  | nil => simp [removeDuplicatesAux, hs]
  | cons h t ih =>
    have hat : a ∉ t := fun hc => hl (List.mem_cons_of_mem _ hc)
    have hah : a ≠ h := fun hc => hl (hc ▸ List.mem_cons_self ..)
    have has : a ∉ h :: seen := by
      intro hc
      rcases List.mem_cons.1 hc with h1 | h1
      · exact hah h1
      · exact hs h1
    have key : removeDuplicatesAux seen (h :: (t ++ [a]))
        = removeDuplicatesAux seen (h :: t) ++ [a] := by
      by_cases hh : h ∈ seen
      · simp only [removeDuplicatesAux]
        rw [if_pos hh, if_pos hh]
        exact ih hat hs
      · simp only [removeDuplicatesAux]
        rw [if_neg hh, if_neg hh, List.cons_append]
        exact congrArg (h :: ·) (ih hat has)
    simpa using key

theorem removeDuplicatesAux_indexOf_lt {seen l : List ModId} {a b : ModId}
    (ha : a ∈ l) (hb : b ∈ l) (hsa : a ∉ seen) (hsb : b ∉ seen)
    (h : l.indexOf a < l.indexOf b) :
    (removeDuplicatesAux seen l).indexOf a <
      (removeDuplicatesAux seen l).indexOf b := by
  induction l generalizing seen with
  | nil => cases ha
  | cons x t ih =>
    simp only [removeDuplicatesAux]
    by_cases hx : x ∈ seen
    · rw [if_pos hx]
      have hax : a ≠ x := fun hc => hsa (hc ▸ hx)
      have hbx : b ≠ x := fun hc => hsb (hc ▸ hx)
      have ha' : a ∈ t := by
        rcases List.mem_cons.1 ha with rfl | h'
        · exact absurd hx hsa
        · exact h'
      have hb' : b ∈ t := by
        rcases List.mem_cons.1 hb with rfl | h'
        · exact absurd hx hsb
        · exact h'
      have h' : t.indexOf a < t.indexOf b := by
        rw [List.indexOf_cons_ne _ (Ne.symm hax),
          List.indexOf_cons_ne _ (Ne.symm hbx)] at h
        omega
      exact ih ha' hb' hsa hsb h'
    · rw [if_neg hx]
      by_cases hax : a = x
      · subst hax
        have hba : b ≠ a := by
          intro hc; subst hc; omega
        have hb' : b ∈ t := by
          rcases List.mem_cons.1 hb with h' | h'
          · exact absurd h' hba
          · exact h'
        rw [List.indexOf_cons_self, List.indexOf_cons_ne _ (Ne.symm hba)]
        exact Nat.succ_pos _
      · have hbxne : b ≠ x := by
          intro hc; subst hc
          rw [List.indexOf_cons_self] at h; omega
        have ha' : a ∈ t := by
          rcases List.mem_cons.1 ha with h' | h'
          · exact absurd h' hax
          · exact h'
        have hb' : b ∈ t := by
          rcases List.mem_cons.1 hb with h' | h'
          · exact absurd h' hbxne
          · exact h'
        have h' : t.indexOf a < t.indexOf b := by
          rw [List.indexOf_cons_ne _ (Ne.symm hax),
            List.indexOf_cons_ne _ (Ne.symm hbxne)] at h
          omega
        have hxsa : a ∉ x :: seen := by
          intro hc
          rcases List.mem_cons.1 hc with h1 | h1
          · exact hax h1
          · exact hsa h1
        have hxsb : b ∉ x :: seen := by
          intro hc
          rcases List.mem_cons.1 hc with h1 | h1
          · exact hbxne h1
          · exact hsb h1
        have hrec := ih ha' hb' hxsa hxsb h'
        rw [List.indexOf_cons_ne _ (Ne.symm hax),
          List.indexOf_cons_ne _ (Ne.symm hbxne)]
        omega

theorem removeDuplicates_indexOf_iff {l : List ModId} {a b : ModId}
    (ha : a ∈ l) (hb : b ∈ l) (hab : a ≠ b) :
    (removeDuplicates l).indexOf a < (removeDuplicates l).indexOf b ↔
      l.indexOf a < l.indexOf b := by
  constructor
  · intro h
    rcases Nat.lt_trichotomy (l.indexOf a) (l.indexOf b) with h' | h' | h'
    · exact h'
    · exact absurd ((List.indexOf_inj ha hb).1 h') hab
    · have h2 : (removeDuplicates l).indexOf b < (removeDuplicates l).indexOf a :=
        @removeDuplicatesAux_indexOf_lt [] l b a hb ha
          (List.not_mem_nil b) (List.not_mem_nil a) h'
      omega
  · exact @removeDuplicatesAux_indexOf_lt [] l a b ha hb
      (List.not_mem_nil a) (List.not_mem_nil b)

end ResolverLemmas

section ResolverTermination

variable {deps : ModId → List ModId} {loaded : ModId → Bool} {rank : ModId → Nat}

theorem depWeight_def (hrk : AcyclicRank deps rank) (x : ModId) :
    depWeight deps rank hrk x
      = 1 + ((deps x).map (depWeight deps rank hrk)).sum := by
  rw [depWeight]
  congr 1
  rw [List.attach_map_coe]

theorem depLoop_total (hrk : AcyclicRank deps rank) :
    ∀ (fuel : Nat) (W acc : List ModId),
      (W.map (depWeight deps rank hrk)).sum < fuel →
      ∃ r, depLoop deps loaded fuel W acc = some r := by
  intro fuel
  induction fuel with
  | zero => intro W acc h; omega
  | succ k ih =>
    intro W acc h
    match W with
    | [] => exact ⟨acc, by simp [depLoop]⟩
    | x :: rest =>
      simp only [depLoop]
      by_cases hl : loaded x = true
      · rw [if_pos hl]
        apply ih
        have hx : 1 ≤ depWeight deps rank hrk x := by
          rw [depWeight_def]; omega
        simp only [List.map_cons, List.sum_cons] at h
        omega
      · rw [if_neg hl]
        apply ih
        simp only [List.map_cons, List.sum_cons] at h
        have hx : depWeight deps rank hrk x
            = 1 + ((deps x).map (depWeight deps rank hrk)).sum :=
          depWeight_def hrk x
        have hsplit : ((rest ++ (deps x).reverse).map
              (depWeight deps rank hrk)).sum
            = (rest.map (depWeight deps rank hrk)).sum
              + ((deps x).map (depWeight deps rank hrk)).sum := by
          rw [List.map_append, List.sum_append, List.map_reverse,
            List.sum_reverse]
        omega

end ResolverTermination

section ResolveProperties

variable {deps : ModId → List ModId} {loaded : ModId → Bool} {rank : ModId → Nat}
variable {fuel : Nat} {id : ModId} {r : List ModId}

/-- Unpacked form of `depLoop_main` for a full `getNotYetLoadedTransitiveDepIds`
run. -/
theorem resolve_main (h : getNotYetLoadedTransitiveDepIds deps loaded fuel id = some r) :
    ∃ raw p, depLoop deps loaded fuel (deps id).reverse [id] = some raw ∧
      r = removeDuplicates raw ∧ raw = p ++ [id] ∧
      (∀ z ∈ p, loaded z = false ∧
        ∃ w ∈ deps id, loaded w = false ∧ UReach deps loaded w z) ∧
      (∀ z, loaded z = false →
        (∃ w ∈ deps id, loaded w = false ∧ UReach deps loaded w z) → z ∈ p) ∧
      (∀ a b, a ∈ p → b ∈ deps a → loaded b = false →
        raw.indexOf b < raw.indexOf a) := by
  simp only [getNotYetLoadedTransitiveDepIds, Option.map_eq_some'] at h
  obtain ⟨raw, hloop, hr⟩ := h
  obtain ⟨p, hp, hsound, hcompl, hord⟩ := depLoop_main hloop
  refine ⟨raw, p, hloop, hr.symm, hp, ?_, ?_, hord⟩
  · intro z hz
    obtain ⟨hzl, w, hw, hwl, hwz⟩ := hsound z hz
    exact ⟨hzl, w, List.mem_reverse.1 hw, hwl, hwz⟩
  · intro z hzl ⟨w, hw, hwl, hwz⟩
    exact hcompl z hzl ⟨w, List.mem_reverse.2 hw, hwl, hwz⟩

/-- Membership in the resolved list is exactly `UDep`-reachability from the
requested id. -/
theorem resolve_mem (hid : loaded id = false)
    (h : getNotYetLoadedTransitiveDepIds deps loaded fuel id = some r) :
    ∀ x, x ∈ r ↔ UReach deps loaded id x := by
  obtain ⟨raw, p, _, hr, hraw, hsound, hcompl, _⟩ := resolve_main h
  intro x
  rw [hr, mem_removeDuplicates, hraw]
  constructor
  · intro hx
    rcases List.mem_append.1 hx with hx' | hx'
    · obtain ⟨_, w, hw, hwl, hwx⟩ := hsound x hx'
      exact Relation.ReflTransGen.head ⟨hw, hwl⟩ hwx
    · have : x = id := by simpa using hx'
      subst this
      exact Relation.ReflTransGen.refl
  · intro hx
    rcases Relation.ReflTransGen.cases_head hx with rfl | ⟨b, hb, hbx⟩
    · exact List.mem_append.2 (Or.inr (by simp))
    · have hxl : loaded x = false :=
        UReach_not_loaded hb.2 hbx
      exact List.mem_append.2 (Or.inl (hcompl x hxl ⟨b, hb.1, hb.2, hbx⟩))

/-- Every element of the resolved list is not yet loaded (no acyclicity
needed). -/
theorem resolve_not_loaded (hid : loaded id = false)
    (h : getNotYetLoadedTransitiveDepIds deps loaded fuel id = some r) :
    ∀ x ∈ r, loaded x = false := by
  obtain ⟨raw, p, _, hr, hraw, hsound, _, _⟩ := resolve_main h
  intro x hx
  rw [hr, mem_removeDuplicates, hraw] at hx
  rcases List.mem_append.1 hx with hx' | hx'
  · exact (hsound x hx').1
  · have : x = id := by simpa using hx'
    subst this
    exact hid

/-- The resolved list is duplicate free. -/
theorem resolve_nodup (h : getNotYetLoadedTransitiveDepIds deps loaded fuel id = some r) :
    r.Nodup := by
  obtain ⟨raw, p, _, hr, _, _, _, _⟩ := resolve_main h
  rw [hr]
  exact nodup_removeDuplicates

/-- On an acyclic graph the requested id does not occur among the popped
prerequisites, so the resolved list ends with it. -/
theorem resolve_getLast (hrk : AcyclicRank deps rank)
    (h : getNotYetLoadedTransitiveDepIds deps loaded fuel id = some r) :
    r.getLast? = some id := by
  obtain ⟨raw, p, _, hr, hraw, hsound, _, _⟩ := resolve_main h
  have hidp : id ∉ p := by
    intro hc
    obtain ⟨_, w, hw, _, hwz⟩ := hsound id hc
    have h1 : rank id ≤ rank w := UReach_rank_le hrk hwz
    have h2 : rank w < rank id := hrk id w hw
    omega
  have : removeDuplicates raw = removeDuplicatesAux [] p ++ [id] := by
    rw [hraw]
    exact removeDuplicatesAux_append_last hidp (List.not_mem_nil id)
  rw [hr, this]
  simp

/-- Direct-dependency ordering in the resolved list: a not-yet-loaded direct
dependency of any element occurs strictly earlier. -/
theorem resolve_order_direct (hrk : AcyclicRank deps rank)
    (hid : loaded id = false)
    (h : getNotYetLoadedTransitiveDepIds deps loaded fuel id = some r) :
    ∀ a b, a ∈ r → b ∈ deps a → loaded b = false →
      r.indexOf b < r.indexOf a := by
  obtain ⟨raw, p, hloop, hr, hraw, hsound, hcompl, hord⟩ := resolve_main h
  intro a b ha hb hbl
  have hmemraw : ∀ x, x ∈ r ↔ x ∈ raw := fun x => by
    rw [hr, mem_removeDuplicates]
  have haraw : a ∈ raw := (hmemraw a).1 ha
  have hap : a ∈ p ∨ a = id := by
    rw [hraw] at haraw
    rcases List.mem_append.1 haraw with h' | h'
    · exact Or.inl h'
    · exact Or.inr (by simpa using h')
  rcases hap with hap | rfl
  · -- a was popped during the traversal
    have hbp : b ∈ p := by
      obtain ⟨_, w, hw, hwl, hwa⟩ := hsound a hap
      exact hcompl b hbl ⟨w, hw, hwl, hwa.tail ⟨hb, hbl⟩⟩
    have hrawlt : raw.indexOf b < raw.indexOf a := hord a b hap hb hbl
    have hbraw : b ∈ raw := by
      rw [hraw]; exact List.mem_append_left _ hbp
    have hne : b ≠ a := by
      intro hc; subst hc; omega
    have := (removeDuplicates_indexOf_iff hbraw haraw hne).2 hrawlt
    rw [hr]; exact this
  · -- a is the requested id itself
    have hbp : b ∈ p :=
      hcompl b hbl ⟨b, hb, hbl, Relation.ReflTransGen.refl⟩
    have hidp : a ∉ p := by
      intro hc
      obtain ⟨_, w, hw, _, hwz⟩ := hsound a hc
      have h1 : rank a ≤ rank w := UReach_rank_le hrk hwz
      have h2 : rank w < rank a := hrk a w hw
      omega
    have hrawlt : raw.indexOf b < raw.indexOf a := by
      rw [hraw, List.indexOf_append_of_mem hbp,
        List.indexOf_append_of_not_mem hidp]
      have := List.indexOf_lt_length.2 hbp
      simp
      omega
    have hbraw : b ∈ raw := by
      rw [hraw]; exact List.mem_append_left _ hbp
    have hne : b ≠ a := fun hc => hidp (hc ▸ hbp)
    have := (removeDuplicates_indexOf_iff hbraw haraw hne).2 hrawlt
    rw [hr]; exact this

/-- Transitive ordering: every element of the resolved list precedes all
elements that (transitively, through not-yet-loaded modules) depend on it. -/
theorem resolve_order (hrk : AcyclicRank deps rank) (hid : loaded id = false)
    (h : getNotYetLoadedTransitiveDepIds deps loaded fuel id = some r) :
    ∀ x y, y ∈ r → Relation.TransGen (UDep deps loaded) y x →
      r.indexOf x < r.indexOf y := by
  intro x y hy hdep
  induction hdep using Relation.TransGen.head_induction_on with
  | base hstep =>
    exact resolve_order_direct hrk hid h _ _ hy hstep.1 hstep.2
  | ih hstep _ ihrec =>
    rename_i c d _
    have hcr : d ∈ r := by
      rw [resolve_mem hid h]
      exact ((resolve_mem hid h c).1 hy).tail hstep
    have h1 := ihrec hcr
    have h2 := resolve_order_direct hrk hid h c d hy hstep.1 hstep.2
    omega

end ResolveProperties

theorem chainDeps_acyclic : AcyclicRank chainDeps chainRank := by
  intro n d hd
  unfold chainDeps at hd
  by_cases h1 : n = "C"
  · rw [if_pos h1] at hd
    simp only [List.mem_singleton] at hd
    subst hd; subst h1
    decide
  · rw [if_neg h1] at hd
    by_cases h2 : n = "B"
    · rw [if_pos h2] at hd
      simp only [List.mem_singleton] at hd
      subst hd; subst h2
      decide
    · rw [if_neg h2] at hd
      cases hd


/-! ### Claims C1 and C10 -/

/-- **C1, counterexample.** The claim states that for every acyclic graph and
not-yet-loaded id, `resolve(id)` contains *every* not-yet-loaded id that `id`
transitively depends on.  This is false: the loop skips the dependencies of an
already-loaded module, so in the graph `C → B → A` with `B` loaded and `A` not
loaded, `resolve("C") = ["C"]` even though `C` transitively depends on the
not-yet-loaded `A`. -/
theorem c1_counterexample :
    AcyclicRank chainDeps chainRank ∧
    onlyBLoaded "C" = false ∧
    getNotYetLoadedTransitiveDepIds chainDeps onlyBLoaded 10 "C" = some ["C"] ∧
    onlyBLoaded "A" = false ∧
    Reaches chainDeps "C" "A" ∧
    "A" ∉ (["C"] : List ModId) := by
  refine ⟨chainDeps_acyclic, rfl, by decide, rfl, ?_, by decide⟩
  exact Relation.ReflTransGen.head (show "B" ∈ chainDeps "C" by decide)
    (Relation.ReflTransGen.single (show "A" ∈ chainDeps "B" by decide))

/-- **C1** (amended).  For every acyclic dependency graph (witnessed by a
rank function) and every not-yet-loaded id, `resolve(id)`
(`getNotYetLoadedTransitiveDepIds_`) returns a sequence that ends with `id`,
contains exactly the ids reachable from `id` through dependency chains of
not-yet-loaded modules — already-loaded ids excluded — each exactly once,
places each id at the position of its earliest discovery (the deduplication
keeps first occurrences, so relative positions agree with the first
occurrences of the traversal output), and orders every element before all
elements that depend on it through such chains. -/
theorem c1_resolve_amended {deps : ModId → List ModId} {loaded : ModId → Bool}
    {rank : ModId → Nat} {fuel : Nat} {id : ModId} {r : List ModId}
    (hrk : AcyclicRank deps rank) (hid : loaded id = false)
    (hres : getNotYetLoadedTransitiveDepIds deps loaded fuel id = some r) :
    r.getLast? = some id ∧ r.Nodup ∧
    (∀ x, x ∈ r ↔ UReach deps loaded id x) ∧
    (∀ x y, y ∈ r → Relation.TransGen (UDep deps loaded) y x →
      r.indexOf x < r.indexOf y) ∧
    (∃ raw, depLoop deps loaded fuel (deps id).reverse [id] = some raw ∧
      r = removeDuplicates raw ∧
      ∀ x y, x ∈ raw → y ∈ raw → x ≠ y →
        (r.indexOf x < r.indexOf y ↔ raw.indexOf x < raw.indexOf y)) := by
  refine ⟨resolve_getLast hrk hres, resolve_nodup hres, resolve_mem hid hres,
    resolve_order hrk hid hres, ?_⟩
  obtain ⟨raw, p, hloop, hr, _, _, _, _⟩ := resolve_main hres
  refine ⟨raw, hloop, hr, ?_⟩
  intro x y hx hy hxy
  rw [hr]
  exact removeDuplicates_indexOf_iff hx hy hxy

/-- Witness for `c1_resolve_amended` on the concrete chain `C → B → A` with
nothing loaded, where the resolver returns `["A", "B", "C"]`. -/
theorem c1_resolve_amended_witness :
    AcyclicRank chainDeps chainRank ∧ noneLoaded "C" = false ∧
    getNotYetLoadedTransitiveDepIds chainDeps noneLoaded 10 "C"
      = some ["A", "B", "C"] ∧
    ((["A", "B", "C"] : List ModId).getLast? = some "C" ∧
      (["A", "B", "C"] : List ModId).Nodup ∧
      (∀ x, x ∈ (["A", "B", "C"] : List ModId) ↔
        UReach chainDeps noneLoaded "C" x) ∧
      (∀ x y, y ∈ (["A", "B", "C"] : List ModId) →
        Relation.TransGen (UDep chainDeps noneLoaded) y x →
        (["A", "B", "C"] : List ModId).indexOf x
          < (["A", "B", "C"] : List ModId).indexOf y) ∧
      (∃ raw, depLoop chainDeps noneLoaded 10 (chainDeps "C").reverse ["C"]
          = some raw ∧
        (["A", "B", "C"] : List ModId) = removeDuplicates raw ∧
        ∀ x y, x ∈ raw → y ∈ raw → x ≠ y →
          ((["A", "B", "C"] : List ModId).indexOf x
              < (["A", "B", "C"] : List ModId).indexOf y ↔
            raw.indexOf x < raw.indexOf y))) :=
  ⟨chainDeps_acyclic, rfl, by decide,
    c1_resolve_amended chainDeps_acyclic rfl (by decide)⟩

/-- **C10.** For every acyclic dependency graph (witnessed by a rank
function), the worklist loop of `getNotYetLoadedTransitiveDepIds_`
terminates: some fuel suffices to reach an empty worklist and produce a
result. -/
theorem c10_resolver_terminates {deps : ModId → List ModId}
    {loaded : ModId → Bool} {rank : ModId → Nat}
    (hrk : AcyclicRank deps rank) (id : ModId) :
    ∃ fuel r, getNotYetLoadedTransitiveDepIds deps loaded fuel id = some r := by
  obtain ⟨rr, hrr⟩ := @depLoop_total deps loaded rank hrk
    ((((deps id).reverse.map (depWeight deps rank hrk)).sum) + 1)
    (deps id).reverse [id] (by omega)
  refine ⟨(((deps id).reverse.map (depWeight deps rank hrk)).sum) + 1,
    removeDuplicates rr, ?_⟩
  unfold getNotYetLoadedTransitiveDepIds
  rw [hrr]
  rfl

/-- Witness for `c10_resolver_terminates` on the concrete chain `C → B → A`. -/
theorem c10_resolver_terminates_witness :
    AcyclicRank chainDeps chainRank ∧
    ∃ fuel r, getNotYetLoadedTransitiveDepIds chainDeps noneLoaded fuel "C"
      = some r :=
  ⟨chainDeps_acyclic, c10_resolver_terminates chainDeps_acyclic "C"⟩

/-! ### Basic lemmas about the manager state -/

theorem find_update_ne {l : List (ModId × ModuleInfo)} {mid x : ModId}
    {i : ModuleInfo} (h : x ≠ mid) :
    (l.map (fun p => if p.1 == mid then (p.1, i) else p)).find?
        (fun p => p.1 == x)
      = l.find? (fun p => p.1 == x) := by
  induction l with
  | nil => rfl
  | cons p l ih =>
    simp only [List.map_cons]
    by_cases hp : p.1 = mid
    · have h1 : (p.1 == mid) = true := beq_iff_eq.2 hp
      have h2 : ¬ ((p.1 == x) = true) := by
        simp only [beq_iff_eq, hp]
        exact fun hc => h hc.symm
      rw [if_pos h1, List.find?_cons_of_neg (a := (p.1, i)) _ h2,
        List.find?_cons_of_neg (a := p) _ h2, ih]
    · have h1 : ¬ ((p.1 == mid) = true) := by
        simpa only [beq_iff_eq] using hp
      rw [if_neg h1]
      by_cases hx : p.1 = x
      · have h2 : (p.1 == x) = true := beq_iff_eq.2 hx
        rw [List.find?_cons_of_pos (a := p) _ h2,
          List.find?_cons_of_pos (a := p) _ h2]
      · have h2 : ¬ ((p.1 == x) = true) := by
          simpa only [beq_iff_eq] using hx
        rw [List.find?_cons_of_neg (a := p) _ h2,
          List.find?_cons_of_neg (a := p) _ h2, ih]

theorem find_update_self {l : List (ModId × ModuleInfo)} {mid : ModId}
    {i : ModuleInfo} (h : (l.find? (fun p => p.1 == mid)).isSome) :
    ∃ k, (l.map (fun p => if p.1 == mid then (p.1, i) else p)).find?
        (fun p => p.1 == mid) = some (k, i) := by
  induction l with
  | nil => simp [List.find?] at h
  | cons p l ih =>
    simp only [List.map_cons]
    by_cases hp : p.1 = mid
    · have h1 : (p.1 == mid) = true := beq_iff_eq.2 hp
      rw [if_pos h1]
      exact ⟨p.1, List.find?_cons_of_pos (a := (p.1, i)) _ h1⟩
    · have h1 : ¬ ((p.1 == mid) = true) := by
        simpa only [beq_iff_eq] using hp
      rw [List.find?_cons_of_neg (a := p) _ h1] at h
      obtain ⟨k, hk⟩ := ih h
      rw [if_neg h1]
      exact ⟨k, by rw [List.find?_cons_of_neg (a := p) _ h1]; exact hk⟩

theorem getInfo_update_ne {s : ManagerState} {mid x : ModId} {i : ModuleInfo}
    (h : x ≠ mid) : getInfo (updateInfo s mid i) x = getInfo s x := by
  simp only [getInfo, updateInfo]
  rw [find_update_ne h]

theorem getInfo_update_self {s : ManagerState} {mid : ModId}
    {i j : ModuleInfo} (h : getInfo s mid = some j) :
    getInfo (updateInfo s mid i) mid = some i := by
  simp only [getInfo, updateInfo] at h ⊢
  obtain ⟨p, hp, hp2⟩ := Option.map_eq_some'.1 h
  obtain ⟨k, hk⟩ := find_update_self (i := i) (by rw [hp]; rfl)
  rw [hk]
  rfl

theorem isLoaded_update_of_loaded_eq {s : ManagerState} {mid : ModId}
    {i j : ModuleInfo} (hj : getInfo s mid = some j) (hl : i.loaded = j.loaded)
    (x : ModId) : isLoaded (updateInfo s mid i) x = isLoaded s x := by
  by_cases h : x = mid
  · subst h
    simp only [isLoaded, getInfo_update_self hj, hj, hl]
  · simp only [isLoaded, getInfo_update_ne h]

theorem getDeps_update_of_deps_eq {s : ManagerState} {mid : ModId}
    {i j : ModuleInfo} (hj : getInfo s mid = some j) (hd : i.deps = j.deps)
    (x : ModId) : getDeps (updateInfo s mid i) x = getDeps s x := by
  by_cases h : x = mid
  · subst h
    simp only [getDeps, getInfo_update_self hj, hj, hd]
  · simp only [getDeps, getInfo_update_ne h]

theorem resolveIn_eq_of_agree {s s' : ManagerState}
    (hd : ∀ x, getDeps s x = getDeps s' x)
    (hl : ∀ x, isLoaded s x = isLoaded s' x) (fuel : Nat) (mid : ModId) :
    resolveIn s fuel mid = resolveIn s' fuel mid := by
  unfold resolveIn
  rw [show getDeps s = getDeps s' from funext hd,
    show (fun m => isLoaded s m) = (fun m => isLoaded s' m) from funext hl]

theorem registerCallbackOn_eq {s s' : ManagerState} {mid : ModId} {tok : Nat}
    (h : registerCallbackOn s mid tok = some s') :
    ∃ i, getInfo s mid = some i ∧
      s' = updateInfo s mid { i with callbacks := i.callbacks ++ [tok] } := by
  unfold registerCallbackOn at h
  cases hg : getInfo s mid with
  | none => rw [hg] at h; cases h
  | some i =>
    rw [hg] at h
    exact ⟨i, rfl, (Option.some_inj.1 h).symm⟩

theorem registerErrbackOn_eq {s s' : ManagerState} {mid : ModId} {tok : Nat}
    (h : registerErrbackOn s mid tok = some s') :
    ∃ i, getInfo s mid = some i ∧
      s' = updateInfo s mid { i with errbacks := i.errbacks ++ [tok] } := by
  unfold registerErrbackOn at h
  cases hg : getInfo s mid with
  | none => rw [hg] at h; cases h
  | some i =>
    rw [hg] at h
    exact ⟨i, rfl, (Option.some_inj.1 h).symm⟩

/-! ### The active/idle dispatch -/

theorem executeCallbacks_shape (s : ManagerState) (t : CallbackType) :
    ∀ e ∈ executeCallbacks s t, ∃ fn, e = Event.lifecycle t fn := by
  intro e he
  unfold executeCallbacks at he
  obtain ⟨fn, _, rfl⟩ := List.mem_map.1 he
  exact ⟨fn, rfl⟩

theorem executeCallbacks_lastActive (s : ManagerState) (a : Bool)
    (t : CallbackType) :
    executeCallbacks { s with lastActive := a } t = executeCallbacks s t := by
  cases t <;> rfl

/-- Full characterization of `dispatchActiveIdleChangeIfNeeded_`: the stored
flags end up equal to the recomputed ones, and the emitted events are exactly
the registered callbacks of the transition types that actually flipped, in
registration order, active/idle before user-active/user-idle. -/
theorem dispatchActiveIdle_eq (s : ManagerState) :
    dispatchActiveIdleChangeIfNeeded s
      = ({ s with lastActive := s.isActive, userLastActive := s.isUserActive },
          (if s.isActive ≠ s.lastActive then
            executeCallbacks s (if s.isActive then .active else .idle) else [])
          ++ (if s.isUserActive ≠ s.userLastActive then
            executeCallbacks s
              (if s.isUserActive then .userActive else .userIdle) else [])) := by
  unfold dispatchActiveIdleChangeIfNeeded ManagerState.isActive
    ManagerState.isUserActive
  dsimp only
  by_cases h1 : (!s.loadingModuleIds.isEmpty) ≠ s.lastActive
  · by_cases h2 : (!s.userInitiatedLoadingModuleIds.isEmpty) ≠ s.userLastActive
    · simp only [if_pos h1, if_pos h2]
      have hex := executeCallbacks_lastActive s (!s.loadingModuleIds.isEmpty)
        (if (!s.userInitiatedLoadingModuleIds.isEmpty) = true then
          CallbackType.userActive else CallbackType.userIdle)
      rw [hex]
    · have h2' : (!s.userInitiatedLoadingModuleIds.isEmpty) = s.userLastActive :=
        not_not.1 h2
      simp only [if_pos h1, if_neg h2]
      rw [h2']
  · have h1' : (!s.loadingModuleIds.isEmpty) = s.lastActive := not_not.1 h1
    by_cases h2 : (!s.userInitiatedLoadingModuleIds.isEmpty) ≠ s.userLastActive
    · simp only [if_neg h1, if_pos h2]
      rw [h1']
    · have h2' : (!s.userInitiatedLoadingModuleIds.isEmpty) = s.userLastActive :=
        not_not.1 h2
      simp only [if_neg h1, if_neg h2]
      rw [h1', h2']

theorem dispatchActiveIdle_state (s : ManagerState) :
    (dispatchActiveIdleChangeIfNeeded s).1
      = { s with lastActive := s.isActive, userLastActive := s.isUserActive } := by
  rw [dispatchActiveIdle_eq]

theorem FlagsInv_dispatch (s : ManagerState) :
    FlagsInv (dispatchActiveIdleChangeIfNeeded s).1 := by
  rw [dispatchActiveIdle_state]
  exact ⟨rfl, rfl⟩

theorem dispatchActiveIdle_events_shape (s : ManagerState) :
    ∀ e ∈ (dispatchActiveIdleChangeIfNeeded s).2,
      ∃ t fn, e = Event.lifecycle t fn := by
  rw [dispatchActiveIdle_eq]
  intro e he
  rcases List.mem_append.1 he with h | h
  · split at h
    · obtain ⟨fn, rfl⟩ := executeCallbacks_shape _ _ _ h
      exact ⟨_, fn, rfl⟩
    · cases h
  · split at h
    · obtain ⟨fn, rfl⟩ := executeCallbacks_shape _ _ _ h
      exact ⟨_, fn, rfl⟩
    · cases h

/-! ### Characterization of `loadModule_` -/

theorem loadModule_spec {fuel : Nat} {s : ManagerState} {mid : ModId}
    {isRetry : Bool} {s' : ManagerState} {ev : List Event}
    (h : loadModule fuel s mid isRetry = some (s', ev)) :
    isLoaded s mid = false ∧
    ∃ ids0 ids,
      resolveIn s fuel mid = some ids0 ∧
      ids = (if !s.batchModeEnabled && ids0.length > 1 then ids0.take 1
        else ids0) ∧
      s'.loadingModuleIds = ids ∧
      s'.requestedModuleIdsQueue
        = (if !s.batchModeEnabled && ids0.length > 1 then
            ids0.drop 1 ++ s.requestedModuleIdsQueue
          else s.requestedModuleIdsQueue) ∧
      s'.moduleInfoMap = s.moduleInfoMap ∧
      s'.userInitiatedLoadingModuleIds = s.userInitiatedLoadingModuleIds ∧
      s'.errorCbs = s.errorCbs ∧
      s'.consecutiveFailures
        = (if isRetry then s.consecutiveFailures else 0) ∧
      s'.batchModeEnabled = s.batchModeEnabled ∧
      s'.nextToken = s.nextToken ∧
      (∀ e ∈ ev, e = Event.loadRequest ids ∨ ∃ t fn, e = Event.lifecycle t fn) ∧
      Event.loadRequest ids ∈ ev ∧
      (∀ ids2, Event.loadRequest ids2 ∈ ev → ids2 = ids) := by
  unfold loadModule at h
  cases hl : isLoaded s mid with
  | true =>
    rw [if_pos hl] at h
    cases h
  | false =>
    rw [if_neg (by simp [hl])] at h
    refine ⟨rfl, ?_⟩
    cases hres : resolveIn s fuel mid with
    | none => rw [hres] at h; cases h
    | some ids0 =>
      rw [hres] at h
      simp only [Option.bind_eq_bind, Option.some_bind] at h
      refine ⟨ids0, _, rfl, rfl, ?_⟩
      cases hb : (!s.batchModeEnabled && decide (ids0.length > 1)) with
      | true =>
        simp only [hb, if_pos] at h ⊢
        cases hr : isRetry with
        | true =>
          simp only [hr, Bool.not_true, Bool.false_eq_true, if_false,
            if_true] at h ⊢
          obtain ⟨hs', hev⟩ := Prod.mk.injEq .. ▸ Option.some_inj.1 h
          subst hs' hev
          rw [dispatchActiveIdle_state]
          refine ⟨rfl, rfl, rfl, rfl, rfl, rfl, rfl, rfl, ?_, ?_, ?_⟩
          · intro e he
            rcases List.mem_append.1 he with h' | h'
            · exact Or.inr (dispatchActiveIdle_events_shape _ _ h')
            · exact Or.inl (by simpa using h')
          · exact List.mem_append_right _ (by simp)
          · intro ids2 h2
            rcases List.mem_append.1 h2 with h' | h'
            · obtain ⟨t, fn, hfn⟩ := dispatchActiveIdle_events_shape _ _ h'
              cases hfn
            · simpa using h'
        | false =>
          simp only [hr, Bool.not_false, if_true] at h ⊢
          obtain ⟨hs', hev⟩ := Prod.mk.injEq .. ▸ Option.some_inj.1 h
          subst hs' hev
          rw [dispatchActiveIdle_state]
          refine ⟨rfl, rfl, rfl, rfl, rfl, rfl, rfl, rfl, ?_, ?_, ?_⟩
          · intro e he
            rcases List.mem_append.1 he with h' | h'
            · exact Or.inr (dispatchActiveIdle_events_shape _ _ h')
            · exact Or.inl (by simpa using h')
          · exact List.mem_append_right _ (by simp)
          · intro ids2 h2
            rcases List.mem_append.1 h2 with h' | h'
            · obtain ⟨t, fn, hfn⟩ := dispatchActiveIdle_events_shape _ _ h'
              cases hfn
            · simpa using h'
      | false =>
        simp only [hb, Bool.false_eq_true, if_false] at h ⊢
        cases hr : isRetry with
        | true =>
          simp only [hr, Bool.not_true, Bool.false_eq_true, if_false] at h ⊢
          obtain ⟨hs', hev⟩ := Prod.mk.injEq .. ▸ Option.some_inj.1 h
          subst hs' hev
          rw [dispatchActiveIdle_state]
          refine ⟨rfl, rfl, rfl, rfl, rfl, rfl, rfl, rfl, ?_, ?_, ?_⟩
          · intro e he
            rcases List.mem_append.1 he with h' | h'
            · exact Or.inr (dispatchActiveIdle_events_shape _ _ h')
            · exact Or.inl (by simpa using h')
          · exact List.mem_append_right _ (by simp)
          · intro ids2 h2
            rcases List.mem_append.1 h2 with h' | h'
            · obtain ⟨t, fn, hfn⟩ := dispatchActiveIdle_events_shape _ _ h'
              cases hfn
            · simpa using h'
        | false =>
          simp only [hr, Bool.not_false, if_true] at h ⊢
          obtain ⟨hs', hev⟩ := Prod.mk.injEq .. ▸ Option.some_inj.1 h
          subst hs' hev
          rw [dispatchActiveIdle_state]
          refine ⟨rfl, rfl, rfl, rfl, rfl, rfl, rfl, rfl, ?_, ?_, ?_⟩
          · intro e he
            rcases List.mem_append.1 he with h' | h'
            · exact Or.inr (dispatchActiveIdle_events_shape _ _ h')
            · exact Or.inl (by simpa using h')
          · exact List.mem_append_right _ (by simp)
          · intro ids2 h2
            rcases List.mem_append.1 h2 with h' | h'
            · obtain ⟨t, fn, hfn⟩ := dispatchActiveIdle_events_shape _ _ h'
              cases hfn
            · simpa using h'

/-! ### Characterization of `loadNextModule_` and the cancellation loop -/

theorem resolveIn_loading_irrel (s : ManagerState) (l : List ModId)
    (fuel : Nat) (mid : ModId) :
    resolveIn { s with loadingModuleIds := l } fuel mid
      = resolveIn s fuel mid := rfl

theorem loadNextAux_spec {fuel : Nat} :
    ∀ {qs : List ModId} {s s' : ManagerState} {ev : List Event},
    loadNextAux fuel s qs = some (s', ev) →
    s'.moduleInfoMap = s.moduleInfoMap ∧
    s'.errorCbs = s.errorCbs ∧
    s'.userInitiatedLoadingModuleIds = s.userInitiatedLoadingModuleIds ∧
    s'.nextToken = s.nextToken ∧
    (∀ e ∈ ev, (∃ ids, e = Event.loadRequest ids) ∨
      ∃ t fn, e = Event.lifecycle t fn) ∧
    (∀ ids, Event.loadRequest ids ∈ ev →
      ∃ q ids0, q ∈ qs ∧ isLoaded s q = false ∧
        resolveIn s fuel q = some ids0 ∧
        (ids = ids0 ∨ ids = ids0.take 1)) := by
  intro qs
  induction qs with
  | nil =>
    intro s s' ev h
    unfold loadNextAux at h
    obtain ⟨hs', hev⟩ := Prod.mk.injEq .. ▸ Option.some_inj.1 h
    subst hs' hev
    rw [dispatchActiveIdle_state]
    refine ⟨rfl, rfl, rfl, rfl, ?_, ?_⟩
    · intro e he
      exact Or.inr (dispatchActiveIdle_events_shape _ _ he)
    · intro ids hids
      obtain ⟨t, fn, hfn⟩ := dispatchActiveIdle_events_shape _ _ hids
      cases hfn
  | cons q rest ih =>
    intro s s' ev h
    unfold loadNextAux at h
    cases hl : isLoaded s q with
    | true =>
      rw [if_pos hl] at h
      obtain ⟨h1, h2, h3, h4, h5, h6⟩ := ih h
      refine ⟨h1, h2, h3, h4, h5, ?_⟩
      intro ids hids
      obtain ⟨q2, ids0, hq2, hql, hres, hids0⟩ := h6 ids hids
      exact ⟨q2, ids0, List.mem_cons_of_mem _ hq2, hql, hres, hids0⟩
    | false =>
      rw [if_neg (by simp [hl])] at h
      obtain ⟨hnl, ids0, ids, hres, hids, hload, hqueue, hmap, hui, herr,
        hcf, hbm, hnt, hshape, hmem, huniq⟩ := loadModule_spec h
      refine ⟨hmap, herr, hui, hnt, ?_, ?_⟩
      · intro e he
        rcases hshape e he with h' | h'
        · exact Or.inl ⟨ids, h'⟩
        · exact Or.inr h'
      · intro ids2 hids2
        have : ids2 = ids := huniq ids2 hids2
        subst this
        refine ⟨q, ids0, List.mem_cons_self .., hl, hres, ?_⟩
        cases hb : (!({ s with requestedModuleIdsQueue := rest
            } : ManagerState).batchModeEnabled
            && decide (ids0.length > 1)) with
        | false =>
          rw [hb] at hids
          simp at hids
          exact Or.inl hids
        | true =>
          rw [hb] at hids
          simp at hids
          exact Or.inr hids

theorem cancelFold_eq (cs : List ModId) :
    ∀ st : ManagerState, cs.foldl cancelRemove st
      = { st with
          requestedModuleIdsQueue := eraseAll st.requestedModuleIdsQueue cs,
          userInitiatedLoadingModuleIds :=
            eraseAll st.userInitiatedLoadingModuleIds cs } := by
  induction cs with
  | nil => intro st; rfl
  | cons c cs ih =>
    intro st
    rw [List.foldl_cons, ih]
    rfl

theorem eraseAll_subset {cs : List ModId} :
    ∀ {l : List ModId} {x : ModId}, x ∈ eraseAll l cs → x ∈ l := by
  induction cs with
  | nil => intro l x h; exact h
  | cons c cs ih =>
    intro l x h
    exact List.erase_subset _ _ (ih h)

theorem nodup_eraseAll {cs : List ModId} :
    ∀ {l : List ModId}, l.Nodup → (eraseAll l cs).Nodup := by
  induction cs with
  | nil => intro l h; exact h
  | cons c cs ih => intro l h; exact ih (h.erase c)

theorem not_mem_eraseAll {cs : List ModId} :
    ∀ {l : List ModId} {x : ModId}, l.Nodup → x ∈ cs →
      x ∉ eraseAll l cs := by
  induction cs with
  | nil => intro l x _ h; cases h
  | cons c cs ih =>
    intro l x hnd hx
    rcases List.mem_cons.1 hx with rfl | hx'
    · intro hc
      have hc' : x ∈ l.erase x := eraseAll_subset hc
      exact ((hnd.mem_erase_iff).1 hc').1 rfl
    · exact ih (hnd.erase c) hx'

theorem mem_eraseAll_of_not_mem {cs : List ModId} :
    ∀ {l : List ModId} {x : ModId}, x ∈ l → x ∉ cs →
      x ∈ eraseAll l cs := by
  induction cs with
  | nil => intro l x h _; exact h
  | cons c cs ih =>
    intro l x hx hnc
    have hxc : x ≠ c := fun hc => hnc (hc ▸ List.mem_cons_self ..)
    exact ih (List.mem_erase_of_ne hxc |>.2 hx) fun hc =>
      hnc (List.mem_cons_of_mem _ hc)

theorem filterDependents_loading_irrel {fuel : Nat} {s : ManagerState}
    {l : List ModId} {idOpt : Option ModId} :
    ∀ qs, filterDependents fuel { s with loadingModuleIds := l } idOpt qs
      = filterDependents fuel s idOpt qs := by
  intro qs
  induction qs with
  | nil => rfl
  | cons q rest ih =>
    unfold filterDependents
    rw [resolveIn_loading_irrel, ih]

theorem contains_eq_true_iff {l : List ModId} {a : ModId} :
    l.contains a = true ↔ a ∈ l := List.elem_iff

theorem filterDependents_spec {fuel : Nat} {s : ManagerState}
    {idOpt : Option ModId} :
    ∀ {qs l : List ModId}, filterDependents fuel s idOpt qs = some l →
    (∀ q ∈ l, q ∈ qs) ∧
    (∀ q res fid, q ∈ qs → resolveIn s fuel q = some res →
      idOpt = some fid → fid ∈ res → q ∈ l) ∧
    (∀ q res fid, q ∈ l → resolveIn s fuel q = some res →
      idOpt = some fid → fid ∈ res) := by
  intro qs
  induction qs with
  | nil =>
    intro l h
    obtain rfl : l = [] := (Option.some_inj.1 h).symm
    exact ⟨by simp, by simp, by simp⟩
  | cons q rest ih =>
    intro l h
    unfold filterDependents at h
    cases hres : resolveIn s fuel q with
    | none => rw [hres] at h; cases h
    | some res =>
      rw [hres] at h
      simp only [Option.bind_eq_bind, Option.some_bind] at h
      cases htail : filterDependents fuel s idOpt rest with
      | none => rw [htail] at h; cases h
      | some tail =>
        rw [htail] at h
        simp only [Option.some_bind] at h
        obtain ⟨hsub, hfwd, hbwd⟩ := ih htail
        cases idOpt with
        | none =>
          obtain rfl : l = tail := by simpa using (Option.some_inj.1 h).symm
          refine ⟨fun x hx => List.mem_cons_of_mem _ (hsub x hx), ?_, ?_⟩
          · intro _ _ _ _ _ hc; cases hc
          · intro _ _ _ _ _ hc; cases hc
        | some fid =>
          dsimp only at h
          by_cases hin : fid ∈ res
          · have hcb : res.contains fid = true := contains_eq_true_iff.2 hin
            rw [hcb] at h
            obtain rfl : l = q :: tail := by simpa using (Option.some_inj.1 h).symm
            refine ⟨?_, ?_, ?_⟩
            · intro x hx
              rcases List.mem_cons.1 hx with rfl | hx'
              · exact List.mem_cons_self ..
              · exact List.mem_cons_of_mem _ (hsub x hx')
            · intro q2 res2 fid2 hq2 hres2 hfid2 hin2
              obtain rfl : fid = fid2 := Option.some_inj.1 hfid2
              rcases List.mem_cons.1 hq2 with rfl | hq2'
              · exact List.mem_cons_self ..
              · exact List.mem_cons_of_mem _
                  (hfwd q2 res2 fid hq2' hres2 rfl hin2)
            · intro q2 res2 fid2 hq2 hres2 hfid2
              obtain rfl : fid = fid2 := Option.some_inj.1 hfid2
              rcases List.mem_cons.1 hq2 with rfl | hq2'
              · rw [hres] at hres2
                obtain rfl : res2 = res := (Option.some_inj.1 hres2).symm
                exact hin
              · exact hbwd q2 res2 fid hq2' hres2 rfl
          · have hcb : res.contains fid = false := by
              rcases Bool.eq_false_or_eq_true (res.contains fid) with hb | hb
              · exact absurd (contains_eq_true_iff.1 hb) hin
              · exact hb
            rw [hcb] at h
            obtain rfl : l = tail := by simpa using (Option.some_inj.1 h).symm
            refine ⟨fun x hx => List.mem_cons_of_mem _ (hsub x hx), ?_, ?_⟩
            · intro q2 res2 fid2 hq2 hres2 hfid2 hin2
              obtain rfl : fid = fid2 := Option.some_inj.1 hfid2
              rcases List.mem_cons.1 hq2 with rfl | hq2'
              · rw [hres] at hres2
                obtain rfl : res2 = res := (Option.some_inj.1 hres2).symm
                exact absurd hin2 hin
              · exact hfwd q2 res2 fid hq2' hres2 rfl hin2
            · intro q2 res2 fid2 hq2 hres2 hfid2
              obtain rfl : fid = fid2 := Option.some_inj.1 hfid2
              exact hbwd q2 res2 fid hq2 hres2 rfl

theorem googInsert_mem_self (l : List ModId) (a : ModId) :
    a ∈ googInsert l a := by
  unfold googInsert
  split
  · assumption
  · simp

theorem googInsert_mem_of_mem {l : List ModId} {a x : ModId} (h : x ∈ l) :
    x ∈ googInsert l a := by
  unfold googInsert
  split
  · exact h
  · exact List.mem_append_left _ h

/-! ### Characterization of `dispatchModuleLoadFailed_` -/

theorem onErrorInfo_fields (s2 : ManagerState) (idOpt : Option ModId)
    (cause : FailureType) :
    (onErrorInfo s2 idOpt cause).1.requestedModuleIdsQueue
      = s2.requestedModuleIdsQueue ∧
    (onErrorInfo s2 idOpt cause).1.userInitiatedLoadingModuleIds
      = s2.userInitiatedLoadingModuleIds ∧
    (onErrorInfo s2 idOpt cause).1.loadingModuleIds = s2.loadingModuleIds ∧
    (onErrorInfo s2 idOpt cause).1.errorCbs = s2.errorCbs ∧
    (onErrorInfo s2 idOpt cause).1.idleCbs = s2.idleCbs ∧
    (onErrorInfo s2 idOpt cause).1.activeCbs = s2.activeCbs ∧
    (onErrorInfo s2 idOpt cause).1.userIdleCbs = s2.userIdleCbs ∧
    (onErrorInfo s2 idOpt cause).1.userActiveCbs = s2.userActiveCbs ∧
    (onErrorInfo s2 idOpt cause).1.consecutiveFailures
      = s2.consecutiveFailures ∧
    (onErrorInfo s2 idOpt cause).1.lastActive = s2.lastActive ∧
    (onErrorInfo s2 idOpt cause).1.userLastActive = s2.userLastActive ∧
    (onErrorInfo s2 idOpt cause).1.batchModeEnabled = s2.batchModeEnabled ∧
    (onErrorInfo s2 idOpt cause).1.nextToken = s2.nextToken ∧
    (∀ x, isLoaded (onErrorInfo s2 idOpt cause).1 x = isLoaded s2 x) ∧
    (∀ x, getDeps (onErrorInfo s2 idOpt cause).1 x = getDeps s2 x) := by
  unfold onErrorInfo
  cases idOpt with
  | none => exact ⟨rfl, rfl, rfl, rfl, rfl, rfl, rfl, rfl, rfl, rfl, rfl,
      rfl, rfl, fun x => rfl, fun x => rfl⟩
  | some fid =>
    dsimp only
    cases hgi : getInfo s2 fid with
    | none => exact ⟨rfl, rfl, rfl, rfl, rfl, rfl, rfl, rfl, rfl, rfl, rfl,
        rfl, rfl, fun x => rfl, fun x => rfl⟩
    | some i =>
      dsimp only
      refine ⟨rfl, rfl, rfl, rfl, rfl, rfl, rfl, rfl, rfl, rfl, rfl,
        rfl, rfl, fun x => ?_, fun x => ?_⟩
      · exact isLoaded_update_of_loaded_eq
          (i := { i with callbacks := [], errbacks := [] }) hgi rfl x
      · exact getDeps_update_of_deps_eq
          (i := { i with callbacks := [], errbacks := [] }) hgi rfl x

theorem onErrorInfo_events (s2 : ManagerState) (idOpt : Option ModId)
    (cause : FailureType) :
    (∀ e ∈ (onErrorInfo s2 idOpt cause).2, ∃ tok,
      e = Event.deferredFail tok cause) ∧
    (∀ tok c2, Event.deferredFail tok c2 ∈ (onErrorInfo s2 idOpt cause).2 →
      c2 = cause ∧ ∃ fid i, idOpt = some fid ∧ getInfo s2 fid = some i ∧
        tok ∈ i.errbacks) ∧
    (∀ fid i, idOpt = some fid → getInfo s2 fid = some i →
      ∀ tok ∈ i.errbacks,
        Event.deferredFail tok cause ∈ (onErrorInfo s2 idOpt cause).2) := by
  unfold onErrorInfo
  cases idOpt with
  | none =>
    refine ⟨by simp, by simp, ?_⟩
    intro fid i hc
    cases hc
  | some fid =>
    dsimp only
    cases hgi : getInfo s2 fid with
    | none =>
      refine ⟨by simp, by simp, ?_⟩
      intro fid2 i hfid2 hgi2
      obtain rfl : fid = fid2 := Option.some_inj.1 hfid2
      rw [hgi2] at hgi
      cases hgi
    | some i =>
      dsimp only
      refine ⟨?_, ?_, ?_⟩
      · intro e he
        obtain ⟨tok, _, rfl⟩ := List.mem_map.1 he
        exact ⟨tok, rfl⟩
      · intro tok c2 htok
        obtain ⟨tok2, htok2, h3⟩ := List.mem_map.1 htok
        obtain ⟨rfl, rfl⟩ : tok2 = tok ∧ c2 = cause := by
          cases h3; exact ⟨rfl, rfl⟩
        exact ⟨rfl, fid, i, rfl, hgi, htok2⟩
      · intro fid2 i2 hfid2 hgi2 tok htok
        obtain rfl : fid = fid2 := Option.some_inj.1 hfid2
        obtain rfl : i = i2 := Option.some_inj.1 (hgi ▸ hgi2)
        exact List.mem_map.2 ⟨tok, htok, rfl⟩

theorem dispatchFailed_spec {fuel : Nat} {s : ManagerState}
    {cause : FailureType} {s' : ManagerState} {ev : List Event} {F : ModId}
    (hF : s.loadingModuleIds.getLast? = some F)
    (h : dispatchModuleLoadFailed fuel s cause = some (s', ev)) :
    ∃ dependents,
      filterDependents fuel s (some F) s.requestedModuleIdsQueue
        = some dependents ∧
      s'.requestedModuleIdsQueue
        = eraseAll s.requestedModuleIdsQueue (googInsert dependents F) ∧
      s'.userInitiatedLoadingModuleIds
        = eraseAll s.userInitiatedLoadingModuleIds (googInsert dependents F) ∧
      s'.loadingModuleIds = [] ∧
      s'.errorCbs = s.errorCbs ∧
      (∀ x, isLoaded s' x = isLoaded s x) ∧
      (∀ x, getDeps s' x = getDeps s x) ∧
      (∀ fn ∈ s.errorCbs, ∀ c ∈ googInsert dependents F,
        Event.errorNotify fn c cause ∈ ev) ∧
      (∀ ids, Event.loadRequest ids ∉ ev) ∧
      (∀ fn mid c2, Event.errorNotify fn mid c2 ∈ ev → c2 = cause) ∧
      (∀ tok c2, Event.deferredFail tok c2 ∈ ev → c2 = cause ∧
        ∃ i, getInfo s F = some i ∧ tok ∈ i.errbacks) ∧
      (∀ i, getInfo s F = some i →
        ∀ tok ∈ i.errbacks, Event.deferredFail tok cause ∈ ev) := by
  unfold dispatchModuleLoadFailed at h
  dsimp only at h
  rw [hF] at h
  dsimp only at h
  rw [show filterDependents fuel
      { s with loadingModuleIds := ([] : List ModId) } (some F)
      s.requestedModuleIdsQueue
      = filterDependents fuel s (some F) s.requestedModuleIdsQueue from
    filterDependents_loading_irrel _] at h
  cases hfd : filterDependents fuel s (some F) s.requestedModuleIdsQueue with
  | none => rw [hfd] at h; cases h
  | some deps =>
    rw [hfd] at h
    simp only [Option.bind_eq_bind, Option.some_bind] at h
    rw [cancelFold_eq (googInsert deps F)
      { s with loadingModuleIds := [] }] at h
    obtain ⟨hs', hev⟩ := Prod.mk.injEq .. ▸ Option.some_inj.1 h
    subst hs' hev
    set s2 : ManagerState :=
      { ({ s with loadingModuleIds := [] } : ManagerState) with
        requestedModuleIdsQueue := eraseAll
          ({ s with loadingModuleIds := ([] : List ModId)
            } : ManagerState).requestedModuleIdsQueue (googInsert deps F),
        userInitiatedLoadingModuleIds := eraseAll
          ({ s with loadingModuleIds := ([] : List ModId)
            } : ManagerState).userInitiatedLoadingModuleIds
          (googInsert deps F) } with hs2
    obtain ⟨hq, hui, hld, herr, hidle, hact, huidle, huact, hcf, hla, hula,
      hbm, hnt, hloadedPres, hdepsPres⟩ := onErrorInfo_fields s2 (some F) cause
    obtain ⟨hshape, hfwd, hbwd⟩ := onErrorInfo_events s2 (some F) cause
    have hgiS : getInfo s2 F = getInfo s F := rfl
    rw [dispatchActiveIdle_state]
    refine ⟨deps, rfl, ?_, ?_, ?_, ?_, ?_, ?_, ?_, ?_, ?_, ?_, ?_⟩
    · exact hq
    · exact hui
    · exact hld
    · exact herr
    · intro x
      show isLoaded (onErrorInfo s2 (some F) cause).1 x = isLoaded s x
      rw [hloadedPres x, hs2]
      rfl
    · intro x
      show getDeps (onErrorInfo s2 (some F) cause).1 x = getDeps s x
      rw [hdepsPres x, hs2]
      rfl
    · intro fn hfn c hc
      refine List.mem_append_left _ (List.mem_append_left _ ?_)
      exact List.mem_flatMap.2 ⟨fn, hfn, List.mem_map.2 ⟨c, hc, rfl⟩⟩
    · intro ids hids
      rcases List.mem_append.1 hids with h2 | h2
      · rcases List.mem_append.1 h2 with h3 | h3
        · obtain ⟨fn, _, h4⟩ := List.mem_flatMap.1 h3
          obtain ⟨c, _, h5⟩ := List.mem_map.1 h4
          cases h5
        · obtain ⟨tok, h5⟩ := hshape _ h3
          cases h5
      · obtain ⟨t, fn, hfn⟩ := dispatchActiveIdle_events_shape _ _ h2
        cases hfn
    · intro fn mid c2 hmem
      rcases List.mem_append.1 hmem with h2 | h2
      · rcases List.mem_append.1 h2 with h3 | h3
        · obtain ⟨fn2, _, h4⟩ := List.mem_flatMap.1 h3
          obtain ⟨c, _, h5⟩ := List.mem_map.1 h4
          injection h5 with h6 h7 h8
          exact h8.symm
        · obtain ⟨tok, h5⟩ := hshape _ h3
          cases h5
      · obtain ⟨t, fn2, hfn2⟩ := dispatchActiveIdle_events_shape _ _ h2
        cases hfn2
    · intro tok c2 htok
      rcases List.mem_append.1 htok with h2 | h2
      · rcases List.mem_append.1 h2 with h3 | h3
        · obtain ⟨fn, _, h4⟩ := List.mem_flatMap.1 h3
          obtain ⟨c, _, h5⟩ := List.mem_map.1 h4
          cases h5
        · obtain ⟨hc2, fid, i, hfid, hgi2, htok2⟩ := hfwd tok c2 h3
          obtain rfl : F = fid := Option.some_inj.1 hfid
          exact ⟨hc2, i, hgiS ▸ hgi2, htok2⟩
      · obtain ⟨t, fn, hfn⟩ := dispatchActiveIdle_events_shape _ _ h2
        cases hfn
    · intro i hi tok htok
      refine List.mem_append_left _ (List.mem_append_right _ ?_)
      exact hbwd F i rfl (hgiS.trans hi) tok htok

/-! ### Further helper lemmas -/

theorem getInfo_of_map_eq {s s' : ManagerState}
    (h : s'.moduleInfoMap = s.moduleInfoMap) (x : ModId) :
    getInfo s' x = getInfo s x := by
  unfold getInfo
  rw [h]

theorem isLoaded_of_map_eq {s s' : ManagerState}
    (h : s'.moduleInfoMap = s.moduleInfoMap) (x : ModId) :
    isLoaded s' x = isLoaded s x := by
  unfold isLoaded
  rw [getInfo_of_map_eq h]

theorem isLoaded_registerCallbackOn {s s' : ManagerState} {mid : ModId}
    {tok : Nat} (h : registerCallbackOn s mid tok = some s') (x : ModId) :
    isLoaded s' x = isLoaded s x := by
  obtain ⟨i, hgi, rfl⟩ := registerCallbackOn_eq h
  exact isLoaded_update_of_loaded_eq
    (i := { i with callbacks := i.callbacks ++ [tok] }) hgi rfl x

theorem isLoaded_registerErrbackOn {s s' : ManagerState} {mid : ModId}
    {tok : Nat} (h : registerErrbackOn s mid tok = some s') (x : ModId) :
    isLoaded s' x = isLoaded s x := by
  obtain ⟨i, hgi, rfl⟩ := registerErrbackOn_eq h
  exact isLoaded_update_of_loaded_eq
    (i := { i with errbacks := i.errbacks ++ [tok] }) hgi rfl x

/-- **C9** (amended).  On an already-loaded module, `load(id)` fires the
returned handle synchronously: the `deferredDone` event for the fresh handle
token is part of the effects of the `load` call itself, emitted before `load`
returns to its caller. -/
theorem c9_load_loaded_sync {fuel : Nat} {s : ManagerState} {mid : ModId}
    {i : ModuleInfo} (hgi : getInfo s mid = some i) (hl : i.loaded = true) :
    load fuel s mid
      = some ({ s with nextToken := s.nextToken + 1 },
          [Event.deferredDone s.nextToken], s.nextToken) := by
  unfold load
  rw [hgi]
  simp only [Option.bind_eq_bind, Option.some_bind]
  rw [if_pos hl]

/-- **C9** (counterexample to the spec sentence).  With module `X` already
loaded, `load("X")` returns with the `deferredDone` event for its handle
already emitted — the handle's callback has fired by the time `load`
returns, not afterwards. -/
theorem c9_counterexample :
    isLoaded loadedXState "X" = true ∧
    load 20 loadedXState "X"
      = some ({ loadedXState with nextToken := 1 },
          [Event.deferredDone 0], 0) ∧
    (load 20 loadedXState "X").map (fun r => r.2.1) ≠ some [] := by
  exact ⟨rfl, by decide, by decide⟩

/-- Witness for `c9_load_loaded_sync` at the loaded module `X`. -/
theorem c9_load_loaded_sync_witness :
    load 20 loadedXState "X"
      = some ({ loadedXState with nextToken := loadedXState.nextToken + 1 },
          [Event.deferredDone loadedXState.nextToken],
          loadedXState.nextToken) :=
  c9_load_loaded_sync (i := ⟨[], true, [], [], []⟩) (by decide) rfl

/-- **C3** (amended).  On loader status 401 with an explicitly requested id
`F` in flight, the manager dispatches failure kind `Unauthorized` and then
clears the whole queue: the post-state queue is empty, no further loader
request or retry is issued, every emitted error notification carries kind
`Unauthorized`, and `F` itself as well as every queued id whose resolved
dependency ids contain `F` is reported to every registered error callback.
Queued ids that do not depend on `F` are silently dropped, not reported
(see `c3_counterexample`). -/
theorem c3_unauthorized_amended {fuel : Nat} {s : ManagerState}
    {s' : ManagerState} {ev : List Event} {F : ModId}
    (hF : s.loadingModuleIds.getLast? = some F)
    (h : handleLoadError fuel s 401 = some (s', ev)) :
    s'.requestedModuleIdsQueue = [] ∧
    (∀ ids, Event.loadRequest ids ∉ ev) ∧
    (∀ fn mid c, Event.errorNotify fn mid c ∈ ev →
      c = FailureType.unauthorized) ∧
    (∀ fn ∈ s.errorCbs,
      Event.errorNotify fn F FailureType.unauthorized ∈ ev) ∧
    (∀ q res, q ∈ s.requestedModuleIdsQueue →
      resolveIn s fuel q = some res → F ∈ res → ∀ fn ∈ s.errorCbs,
        Event.errorNotify fn q FailureType.unauthorized ∈ ev) := by
  unfold handleLoadError at h
  dsimp only at h
  rw [if_pos (rfl : (401 : Nat) = 401)] at h
  cases hdp : dispatchModuleLoadFailed fuel
      { s with consecutiveFailures := s.consecutiveFailures + 1 }
      FailureType.unauthorized with
  | none => rw [hdp] at h; cases h
  | some pr =>
    rw [hdp] at h
    simp only [Option.bind_eq_bind, Option.some_bind] at h
    obtain ⟨s1, ev1⟩ := pr
    dsimp only at h
    obtain ⟨hs', hev⟩ := Prod.mk.injEq .. ▸ Option.some_inj.1 h
    subst hs' hev
    have hF0 : ({ s with consecutiveFailures := s.consecutiveFailures + 1 }
        : ManagerState).loadingModuleIds.getLast? = some F := hF
    obtain ⟨deps, hfd, hq1, hui1, hld1, herr1, hlp, hgp, hcov, hnolr,
      hcause, hdf, hdb⟩ := dispatchFailed_spec hF0 hdp
    obtain ⟨hsub, hfwd, hbwd⟩ := filterDependents_spec hfd
    refine ⟨rfl, ?_, ?_, ?_, ?_⟩
    · exact hnolr
    · exact hcause
    · intro fn hfn
      exact hcov fn hfn F (googInsert_mem_self deps F)
    · intro q res hq hres hFin fn hfn
      have hqd : q ∈ deps := hfwd q res F hq hres rfl hFin
      exact hcov fn hfn q (googInsert_mem_of_mem hqd)

/-- **C3** (counterexample to the spec sentence).  In `c3pre`, `X` is queued
and does not depend on the failing `F`.  A 401 clears the whole queue but
reports `Unauthorized` only for `F` and its dependents: no error callback
fires for the dropped `X`. -/
theorem c3_counterexample :
    "X" ∈ c3pre.requestedModuleIdsQueue ∧
    c3pre.errorCbs = [7] ∧
    handleLoadError 20 c3pre 401 = some (c3post.1, c3post.2) ∧
    c3post.1.requestedModuleIdsQueue = [] ∧
    Event.errorNotify 7 "F" FailureType.unauthorized ∈ c3post.2 ∧
    Event.errorNotify 7 "X" FailureType.unauthorized ∉ c3post.2 := by
  exact ⟨by decide, by decide, by decide, by decide, by decide, by decide⟩

/-- Witness for `c3_unauthorized_amended` on the concrete 401 from
`c3pre`. -/
theorem c3_unauthorized_amended_witness :
    c3pre.loadingModuleIds.getLast? = some "F" ∧
    c3post.1.requestedModuleIdsQueue = [] ∧
    Event.loadRequest ["X"] ∉ c3post.2 ∧
    Event.errorNotify 7 "F" FailureType.unauthorized ∈ c3post.2 := by
  have hm := @c3_unauthorized_amended 20 c3pre c3post.1 c3post.2 "F"
    (by decide) (by decide)
  exact ⟨by decide, hm.1, hm.2.1 ["X"], hm.2.2.2.1 7 (by decide)⟩

/-- **C2** (amended).  On any terminal dispatch with failing id `F`, provided
the queue and the user-initiated list are duplicate free, every queued id
whose resolved dependency ids contain `F` leaves both the queue and the
user-initiated list and is reported with the same failure kind to every
registered error callback, and `F` itself leaves the queue and is reported
likewise.  (Removal uses `goog.array.remove`, which deletes only the first
occurrence, hence the duplicate-freedom hypotheses; see
`c2_counterexample`.) -/
theorem c2_fanout_amended {fuel : Nat} {s : ManagerState}
    {cause : FailureType} {s' : ManagerState} {ev : List Event} {F : ModId}
    (hF : s.loadingModuleIds.getLast? = some F)
    (hndq : s.requestedModuleIdsQueue.Nodup)
    (hndu : s.userInitiatedLoadingModuleIds.Nodup)
    (h : dispatchModuleLoadFailed fuel s cause = some (s', ev)) :
    (∀ q res, q ∈ s.requestedModuleIdsQueue →
      resolveIn s fuel q = some res → F ∈ res →
      q ∉ s'.requestedModuleIdsQueue ∧
      q ∉ s'.userInitiatedLoadingModuleIds ∧
      ∀ fn ∈ s.errorCbs, Event.errorNotify fn q cause ∈ ev) ∧
    F ∉ s'.requestedModuleIdsQueue ∧
    (∀ fn ∈ s.errorCbs, Event.errorNotify fn F cause ∈ ev) := by
  obtain ⟨deps, hfd, hq, hui, hld, herr, hlp, hgp, hcov, hnolr,
    hcause, hdf, hdb⟩ := dispatchFailed_spec hF h
  obtain ⟨hsub, hfwd, hbwd⟩ := filterDependents_spec hfd
  refine ⟨?_, ?_, ?_⟩
  · intro q res hqmem hres hFin
    have hqd : q ∈ deps := hfwd q res F hqmem hres rfl hFin
    have hqcs : q ∈ googInsert deps F := googInsert_mem_of_mem hqd
    refine ⟨?_, ?_, fun fn hfn => hcov fn hfn q hqcs⟩
    · rw [hq]
      exact not_mem_eraseAll hndq hqcs
    · rw [hui]
      exact not_mem_eraseAll hndu hqcs
  · rw [hq]
    exact not_mem_eraseAll hndq (googInsert_mem_self deps F)
  · intro fn hfn
    exact hcov fn hfn F (googInsert_mem_self deps F)

/-- **C2** (counterexample to the spec sentence).  In `c2pre`, `A` is queued,
depends on the in-flight `M`, and appears twice in the user-initiated list
(two user-initiated requests while `M` was loading).  A 410 on `M` cancels
`A` — it leaves the queue — but removes only the first occurrence from the
user-initiated list, so `A` survives there. -/
theorem c2_counterexample :
    c2pre.userInitiatedLoadingModuleIds = ["A", "A"] ∧
    c2pre.requestedModuleIdsQueue = ["A"] ∧
    c2pre.loadingModuleIds = ["M"] ∧
    resolveIn c2pre 20 "A" = some ["M", "A"] ∧
    handleLoadError 20 c2pre 410 = some (c2post.1, c2post.2) ∧
    "A" ∉ c2post.1.requestedModuleIdsQueue ∧
    c2post.1.userInitiatedLoadingModuleIds = ["A"] := by
  exact ⟨by decide, by decide, by decide, by decide, by decide, by decide,
    by decide⟩

/-- Witness for `c2_fanout_amended` on the 410-style dispatch from `c4pre`,
where queued `A` depends on the failing `B`. -/
theorem c2_fanout_amended_witness :
    c4pre.loadingModuleIds.getLast? = some "B" ∧
    "A" ∈ c4pre.requestedModuleIdsQueue ∧
    resolveIn c4pre 20 "A" = some ["B", "A"] ∧
    ("A" ∉ c2dpost.1.requestedModuleIdsQueue ∧
      "A" ∉ c2dpost.1.userInitiatedLoadingModuleIds ∧
      Event.errorNotify 7 "A" FailureType.oldCodeGone ∈ c2dpost.2) ∧
    "B" ∉ c2dpost.1.requestedModuleIdsQueue := by
  have hm := @c2_fanout_amended 20 c4pre FailureType.oldCodeGone c2dpost.1
    c2dpost.2 "B" (by decide) (by decide) (by decide) (by decide)
  have hA := hm.1 "A" ["B", "A"] (by decide) (by decide) (by decide)
  exact ⟨by decide, by decide, by decide,
    ⟨hA.1, hA.2.1, hA.2.2 7 (by decide)⟩, hm.2.1⟩

theorem isEmpty_true_iff {l : List ModId} : l.isEmpty = true ↔ l = [] := by
  cases l <;> simp [List.isEmpty]

/-- Case split of `loadModuleOrEnqueue_`: immediate dispatch on an idle
manager, plain enqueue otherwise. -/
theorem loadModuleOrEnqueue_cases {fuel : Nat} {s : ManagerState}
    {mid : ModId} {s' : ManagerState} {ev : List Event}
    (h : loadModuleOrEnqueue fuel s mid = some (s', ev)) :
    (s.loadingModuleIds = [] ∧ loadModule fuel s mid false = some (s', ev)) ∨
    (s.loadingModuleIds ≠ [] ∧ s'.loadingModuleIds = s.loadingModuleIds ∧
      s'.moduleInfoMap = s.moduleInfoMap ∧
      s'.requestedModuleIdsQueue = s.requestedModuleIdsQueue ++ [mid] ∧
      (∀ e ∈ ev, ∃ t fn, e = Event.lifecycle t fn)) := by
  unfold loadModuleOrEnqueue at h
  cases he : s.loadingModuleIds.isEmpty with
  | true =>
    rw [if_pos he] at h
    exact Or.inl ⟨isEmpty_true_iff.1 he, h⟩
  | false =>
    rw [if_neg (by simp [he])] at h
    dsimp only at h
    obtain ⟨hs', hev⟩ := Prod.mk.injEq .. ▸ Option.some_inj.1 h
    subst hs' hev
    rw [dispatchActiveIdle_state]
    refine Or.inr ⟨?_, rfl, rfl, rfl, ?_⟩
    · intro hc
      rw [hc] at he
      cases he
    · intro e he2
      exact dispatchActiveIdle_events_shape _ _ he2

/-- Case split of `load`: already loaded (synchronous resolution), already
loading or queued (attach only), or fresh (attach and initiate).  In the two
non-loaded cases the handle token ends up among the module's pending
errbacks. -/
theorem load_cases {fuel : Nat} {s : ManagerState} {mid : ModId}
    {s1 : ManagerState} {ev : List Event} {d : Nat}
    (h : load fuel s mid = some (s1, ev, d)) :
    d = s.nextToken ∧
    ((isLoaded s mid = true ∧
        s1 = { s with nextToken := s.nextToken + 1 } ∧
        ev = [Event.deferredDone s.nextToken]) ∨
     (∃ s2 i2, isLoaded s mid = false ∧ getInfo s2 mid = some i2 ∧
        d ∈ i2.errbacks ∧ (∀ x, isLoaded s2 x = isLoaded s x) ∧
        s2.loadingModuleIds = s.loadingModuleIds ∧
        s2.requestedModuleIdsQueue = s.requestedModuleIdsQueue ∧
        s2.batchModeEnabled = s.batchModeEnabled ∧
        s2.userInitiatedLoadingModuleIds
          = s.userInitiatedLoadingModuleIds ∧
        s2.lastActive = s.lastActive ∧
        s2.userLastActive = s.userLastActive ∧
        ((isModuleLoading s mid = true ∧ s1 = s2 ∧ ev = []) ∨
         (isModuleLoading s mid = false ∧
           loadModuleOrEnqueue fuel s2 mid = some (s1, ev))))) := by
  unfold load at h
  cases hgi : getInfo s mid with
  | none => rw [hgi] at h; cases h
  | some i =>
    rw [hgi] at h
    simp only [Option.bind_eq_bind, Option.some_bind] at h
    have hgi0 : getInfo { s with nextToken := s.nextToken + 1 } mid
        = some i := hgi
    cases hil : i.loaded with
    | true =>
      rw [if_pos hil] at h
      have h' := Option.some_inj.1 h
      have hs1 : { s with nextToken := s.nextToken + 1 } = s1 :=
        congrArg Prod.fst h'
      have hev : [Event.deferredDone s.nextToken] = ev :=
        congrArg (fun p => p.2.1) h'
      have hd : s.nextToken = d := congrArg (fun p => p.2.2) h'
      subst hs1 hev hd
      refine ⟨rfl, Or.inl ⟨?_, rfl, rfl⟩⟩
      unfold isLoaded
      rw [hgi]
      exact hil
    | false =>
      rw [if_neg (by simp [hil])] at h
      have hnl : isLoaded s mid = false := by
        unfold isLoaded
        rw [hgi]
        exact hil
      cases hml : isModuleLoading { s with nextToken := s.nextToken + 1 }
          mid with
      | true =>
        rw [if_pos hml] at h
        cases hc1 : registerCallbackOn { s with nextToken := s.nextToken + 1 }
            mid s.nextToken with
        | none => rw [hc1] at h; cases h
        | some sa =>
          rw [hc1] at h
          simp only [Option.some_bind] at h
          cases hc2 : registerErrbackOn sa mid s.nextToken with
          | none => rw [hc2] at h; cases h
          | some sb =>
            rw [hc2] at h
            simp only [Option.some_bind] at h
            have h' := Option.some_inj.1 h
            have hs1 : sb = s1 := congrArg Prod.fst h'
            have hev : ([] : List Event) = ev := congrArg (fun p => p.2.1) h'
            have hd : s.nextToken = d := congrArg (fun p => p.2.2) h'
            subst hs1 hev hd
            obtain ⟨ia, hgia, hsa⟩ := registerCallbackOn_eq hc1
            obtain rfl : i = ia := Option.some_inj.1 (hgi0.symm.trans hgia)
            obtain ⟨j, hgj, hsb⟩ := registerErrbackOn_eq hc2
            have hgja : getInfo sa mid
                = some { i with callbacks := i.callbacks ++ [s.nextToken] } := by
              rw [hsa]
              exact getInfo_update_self hgi0
            obtain rfl : j = { i with callbacks := i.callbacks ++ [s.nextToken] } :=
              Option.some_inj.1 (hgj.symm.trans hgja)
            refine ⟨rfl, Or.inr ⟨sb, { i with
                callbacks := i.callbacks ++ [s.nextToken],
                errbacks := i.errbacks ++ [s.nextToken] },
              hnl, ?_, by simp, ?_, ?_, ?_, ?_, ?_, ?_, ?_,
              Or.inl ⟨hml, rfl, rfl⟩⟩⟩
            · rw [hsb]
              exact getInfo_update_self hgja
            · intro x
              exact (isLoaded_registerErrbackOn hc2 x).trans
                (isLoaded_registerCallbackOn hc1 x)
            · rw [hsb, hsa]
              rfl
            · rw [hsb, hsa]
              rfl
            · rw [hsb, hsa]
              rfl
            · rw [hsb, hsa]
              rfl
            · rw [hsb, hsa]
              rfl
            · rw [hsb, hsa]
              rfl
      | false =>
        rw [if_neg (by simp [hml])] at h
        cases hc1 : registerCallbackOn { s with nextToken := s.nextToken + 1 }
            mid s.nextToken with
        | none => rw [hc1] at h; cases h
        | some sa =>
          rw [hc1] at h
          simp only [Option.some_bind] at h
          cases hc2 : registerErrbackOn sa mid s.nextToken with
          | none => rw [hc2] at h; cases h
          | some sb =>
            rw [hc2] at h
            simp only [Option.some_bind] at h
            cases hlm : loadModuleOrEnqueue fuel sb mid with
            | none => rw [hlm] at h; cases h
            | some pr =>
              rw [hlm] at h
              simp only [Option.some_bind] at h
              obtain ⟨s3, ev3⟩ := pr
              dsimp only at h
              have h' := Option.some_inj.1 h
              have hs1 : s3 = s1 := congrArg Prod.fst h'
              have hev : ev3 = ev := congrArg (fun p => p.2.1) h'
              have hd : s.nextToken = d := congrArg (fun p => p.2.2) h'
              subst hs1 hev hd
              obtain ⟨ia, hgia, hsa⟩ := registerCallbackOn_eq hc1
              obtain rfl : i = ia := Option.some_inj.1 (hgi0.symm.trans hgia)
              obtain ⟨j, hgj, hsb⟩ := registerErrbackOn_eq hc2
              have hgja : getInfo sa mid
                  = some { i with callbacks := i.callbacks ++ [s.nextToken] } := by
                rw [hsa]
                exact getInfo_update_self hgi0
              obtain rfl : j = { i with
                  callbacks := i.callbacks ++ [s.nextToken] } :=
                Option.some_inj.1 (hgj.symm.trans hgja)
              refine ⟨rfl, Or.inr ⟨sb, { i with
                  callbacks := i.callbacks ++ [s.nextToken],
                  errbacks := i.errbacks ++ [s.nextToken] },
                hnl, ?_, by simp, ?_, ?_, ?_, ?_, ?_, ?_, ?_,
                Or.inr ⟨hml, hlm⟩⟩⟩
              · rw [hsb]
                exact getInfo_update_self hgja
              · intro x
                exact (isLoaded_registerErrbackOn hc2 x).trans
                  (isLoaded_registerCallbackOn hc1 x)
              · rw [hsb, hsa]
                rfl
              · rw [hsb, hsa]
                rfl
              · rw [hsb, hsa]
                rfl
              · rw [hsb, hsa]
                rfl
              · rw [hsb, hsa]
                rfl
              · rw [hsb, hsa]
                rfl

/-- **C4** (amended).  The handle created by `load(id)` on a not-yet-loaded
module is registered as a pending errback of `id` itself, and on a terminal
dispatch the pending errbacks of exactly the explicitly requested failing id
`F` are rejected with the failure kind — no more and no fewer.  A handle of a
merely queued module cancelled because a prerequisite failed is therefore
never rejected (see `c4_counterexample`). -/
theorem c4_reject_amended :
    (∀ fuel s mid s1 ev d, load fuel s mid = some (s1, ev, d) →
      isLoaded s mid = false →
      ∃ i, getInfo s1 mid = some i ∧ d ∈ i.errbacks) ∧
    (∀ fuel s cause s' ev F, s.loadingModuleIds.getLast? = some F →
      dispatchModuleLoadFailed fuel s cause = some (s', ev) →
      (∀ i, getInfo s F = some i →
        ∀ tok ∈ i.errbacks, Event.deferredFail tok cause ∈ ev) ∧
      (∀ tok c, Event.deferredFail tok c ∈ ev →
        c = cause ∧ ∃ i, getInfo s F = some i ∧ tok ∈ i.errbacks)) := by
  constructor
  · intro fuel s mid s1 ev d h hnl
    obtain ⟨hd, hcases⟩ := load_cases h
    rcases hcases with ⟨hl, -, -⟩ |
      ⟨s2, i2, -, hgi2, hdi, -, -, -, -, -, -, -, hbr⟩
    · rw [hl] at hnl
      cases hnl
    · rcases hbr with ⟨-, rfl, -⟩ | ⟨-, hlm⟩
      · exact ⟨i2, hgi2, hdi⟩
      · rcases loadModuleOrEnqueue_cases hlm with ⟨-, hlmod⟩ |
          ⟨-, -, hmap, -, -⟩
        · obtain ⟨-, ids0, ids, -, -, -, -, hmap, -⟩ := loadModule_spec hlmod
          exact ⟨i2, (getInfo_of_map_eq hmap mid).trans hgi2, hdi⟩
        · exact ⟨i2, (getInfo_of_map_eq hmap mid).trans hgi2, hdi⟩
  · intro fuel s cause s' ev F hF h
    obtain ⟨deps, -, -, -, -, -, -, -, -, -, -, hdf, hdb⟩ :=
      dispatchFailed_spec hF h
    exact ⟨hdb, hdf⟩

/-- **C4** (counterexample to the spec sentence).  In `c4pre`, queued `A`
holds handle token 0 (registered among `A`'s errbacks) and depends on the
in-flight `B`.  A 410 on `B` cancels `A`, but the events carry no
`deferredFail` for token 0: the queued dependent's handle is never
rejected. -/
theorem c4_counterexample :
    getInfo c4pre "A" = some ⟨["B"], false, [0], [0], []⟩ ∧
    "A" ∈ c4pre.requestedModuleIdsQueue ∧
    resolveIn c4pre 20 "A" = some ["B", "A"] ∧
    handleLoadError 20 c4pre 410 = some (c4post.1, c4post.2) ∧
    "A" ∉ c4post.1.requestedModuleIdsQueue ∧
    isLoaded c4post.1 "A" = false ∧
    Event.deferredFail 0 FailureType.oldCodeGone ∉ c4post.2 := by
  exact ⟨by decide, by decide, by decide, by decide, by decide, by decide,
    by decide⟩

/-- Witness for `c4_reject_amended`: the initial `load("A")` registers handle
token 0 as an errback of `A`, and a timeout dispatch on the loading `F`
rejects `F`'s handle token 0. -/
theorem c4_reject_amended_witness :
    (∃ i, getInfo c4loadRes.1 "A" = some i ∧ c4loadRes.2.2 ∈ i.errbacks) ∧
    Event.deferredFail 0 FailureType.timeout ∈ c4fpost.2 := by
  constructor
  · exact c4_reject_amended.1 20 c4init "A" c4loadRes.1 c4loadRes.2.1
      c4loadRes.2.2 (by decide) (by decide)
  · exact (c4_reject_amended.2 20 c4fpre FailureType.timeout c4fpost.1
      c4fpost.2 "F" (by decide) (by decide)).1 ⟨[], false, [0], [0], []⟩
      (by decide) 0 (by decide)

/-- **C7.**  With batch mode disabled and a resolved list of more than one
entry, `loadModule_` dispatches only the first resolved id and prepends the
remainder to the queue; on the concrete configuration
`{A: [], B: [A], C: [B]}`, `load("C")` invokes the loader with `["A"]`, then
`notifyLoaded("A")` triggers `["B"]`, then `notifyLoaded("B")` triggers
`["C"]`, and `notifyLoaded("C")` resolves the original handle (token 0);
with batch mode enabled the loader is invoked once with
`["A", "B", "C"]`. -/
theorem c7_split_and_scenario :
    (∀ fuel s mid s' ev ids0, s.batchModeEnabled = false →
      resolveIn s fuel mid = some ids0 → ids0.length > 1 →
      loadModule fuel s mid false = some (s', ev) →
      s'.loadingModuleIds = ids0.take 1 ∧
      s'.requestedModuleIdsQueue
        = ids0.drop 1 ++ s.requestedModuleIdsQueue ∧
      Event.loadRequest (ids0.take 1) ∈ ev ∧
      (∀ ids2, Event.loadRequest ids2 ∈ ev → ids2 = ids0.take 1)) ∧
    (runStimuli 20 c7init
        [.load "C", .setLoaded "A", .setLoaded "B", .setLoaded "C"]).map (·.2)
      = some [[Event.loadRequest ["A"]], [Event.loadRequest ["B"]],
          [Event.loadRequest ["C"]], [Event.deferredDone 0]] ∧
    (runStimuli 20 c7initBatch [.load "C"]).map (·.2)
      = some [[Event.loadRequest ["A", "B", "C"]]] := by
  refine ⟨?_, by decide, by decide⟩
  intro fuel s mid s' ev ids0 hb hres hlen h
  obtain ⟨-, ids1, ids, hres1, hids, hload, hqueue, -, -, -, -, -, -, -,
    hmem, huniq⟩ := loadModule_spec h
  obtain rfl : ids0 = ids1 := Option.some_inj.1 (hres.symm.trans hres1)
  have hcond : (!s.batchModeEnabled && decide (ids0.length > 1)) = true := by
    rw [hb]
    simp [hlen]
  rw [hcond] at hids hqueue
  simp only [if_pos] at hids hqueue
  subst hids
  exact ⟨hload, hqueue, hmem, huniq⟩

/-- Witness for the universally quantified part of `c7_split_and_scenario`
on the direct `loadModule_("C")` call from the fresh chain configuration. -/
theorem c7_split_and_scenario_witness :
    c7init.batchModeEnabled = false ∧
    resolveIn c7init 20 "C" = some ["A", "B", "C"] ∧
    loadModule 20 c7init "C" false = some (c7lm.1, c7lm.2) ∧
    c7lm.1.loadingModuleIds = (["A", "B", "C"] : List ModId).take 1 ∧
    c7lm.1.requestedModuleIdsQueue
      = (["A", "B", "C"] : List ModId).drop 1
        ++ c7init.requestedModuleIdsQueue ∧
    Event.loadRequest ((["A", "B", "C"] : List ModId).take 1) ∈ c7lm.2 := by
  have hm := c7_split_and_scenario.1 20 c7init "C" c7lm.1 c7lm.2
    ["A", "B", "C"] (by decide) (by decide) (by decide) (by decide)
  exact ⟨by decide, by decide, by decide, hm.1, hm.2.1, hm.2.2.1⟩

/-- Erasing the listed ids removes at least as many occurrences of any id as
the cancel list holds. -/
theorem count_eraseAll (x : ModId) :
    ∀ (cs l : List ModId),
      (eraseAll l cs).count x ≤ l.count x - cs.count x := by
  intro cs
  induction cs with
  | nil =>
    intro l
    exact Nat.le_refl _
  | cons c cs ih =>
    intro l
    show (eraseAll (l.erase c) cs).count x ≤ l.count x - (c :: cs).count x
    by_cases hc : c = x
    · subst hc
      have h1 := ih (l.erase c)
      have h2 : (l.erase c).count c = l.count c - 1 :=
        List.count_erase_self c l
      have h3 : (c :: cs).count c = cs.count c + 1 :=
        List.count_cons_self c cs
      omega
    · have hne : x ≠ c := fun hx => hc hx.symm
      have h1 := ih (l.erase c)
      have h2 : (l.erase c).count x = l.count x :=
        List.count_erase_of_ne hne l
      have h3 : (c :: cs).count x = cs.count x :=
        List.count_cons_of_ne hne cs
      omega

/-- Counting version of the dependent filter: a queued id whose resolution
contains the failed id keeps every one of its occurrences in the filtered
list (`goog.array.filter` preserves multiplicity), so the cancellation loop
erases them all. -/
theorem filterDependents_count {fuel : Nat} {s : ManagerState}
    {idOpt : Option ModId} {q fid : ModId} {res : List ModId}
    (hres : resolveIn s fuel q = some res) (hfid : idOpt = some fid)
    (hin : fid ∈ res) :
    ∀ {qs l : List ModId}, filterDependents fuel s idOpt qs = some l →
      qs.count q ≤ l.count q := by
  subst hfid
  intro qs
  induction qs with
  | nil =>
    intro l h
    obtain rfl : l = [] := (Option.some_inj.1 h).symm
    exact Nat.le_refl _
  | cons a rest ih =>
    intro l h
    unfold filterDependents at h
    cases hres2 : resolveIn s fuel a with
    | none => rw [hres2] at h; cases h
    | some res2 =>
      rw [hres2] at h
      simp only [Option.bind_eq_bind, Option.some_bind] at h
      cases htail : filterDependents fuel s (some fid) rest with
      | none => rw [htail] at h; cases h
      | some tail =>
        rw [htail] at h
        simp only [Option.some_bind] at h
        dsimp only at h
        have hih := ih htail
        by_cases haq : a = q
        · subst haq
          rw [hres] at hres2
          obtain rfl : res = res2 := Option.some_inj.1 hres2
          have hcb : res.contains fid = true := contains_eq_true_iff.2 hin
          rw [hcb] at h
          obtain rfl : l = a :: tail := by
            simpa using (Option.some_inj.1 h).symm
          rw [List.count_cons_self, List.count_cons_self]
          omega
        · have hne : q ≠ a := fun hx => haq hx.symm
          rw [List.count_cons_of_ne hne]
          split at h
          · obtain rfl : l = a :: tail := (Option.some_inj.1 h).symm
            rw [List.count_cons_of_ne hne]
            exact hih
          · obtain rfl : l = tail := (Option.some_inj.1 h).symm
            exact hih

/-- The advance over the queue (started with nothing loading) dispatches the
first not-yet-loaded queued id — resolved and possibly split — skipping the
already-loaded prefix; when every queued id is loaded, the loading list stays
empty and no loader request is issued. -/
theorem loadNextAux_advance {fuel : Nat} :
    ∀ {qs : List ModId} {u s' : ManagerState} {ev : List Event},
    u.loadingModuleIds = [] →
    loadNextAux fuel u qs = some (s', ev) →
    ((∀ y ∈ qs, isLoaded u y = true) ∧ s'.loadingModuleIds = [] ∧
      (∀ ids, Event.loadRequest ids ∉ ev)) ∨
    (∃ pre q rest2 ids0, qs = pre ++ q :: rest2 ∧
      (∀ y ∈ pre, isLoaded u y = true) ∧ isLoaded u q = false ∧
      resolveIn u fuel q = some ids0 ∧
      (s'.loadingModuleIds = ids0 ∨ s'.loadingModuleIds = ids0.take 1) ∧
      Event.loadRequest s'.loadingModuleIds ∈ ev) := by
  intro qs
  induction qs with
  | nil =>
    intro u s' ev hu h
    unfold loadNextAux at h
    obtain ⟨hs', hev⟩ := Prod.mk.injEq .. ▸ Option.some_inj.1 h
    subst hs' hev
    rw [dispatchActiveIdle_state]
    refine Or.inl ⟨fun y hy => absurd hy (List.not_mem_nil y), hu, ?_⟩
    intro ids hids
    obtain ⟨t, fn, hfn⟩ := dispatchActiveIdle_events_shape _ _ hids
    cases hfn
  | cons a rest ih =>
    intro u s' ev hu h
    unfold loadNextAux at h
    split at h
    · rename_i hl
      rcases ih hu h with ⟨hall, hl0, hnolr⟩ |
        ⟨pre, q, rest2, ids0, heq, hpre, hlq, hresq, hloads, hevq⟩
      · refine Or.inl ⟨?_, hl0, hnolr⟩
        intro y hy
        rcases List.mem_cons.1 hy with rfl | hy2
        · exact hl
        · exact hall y hy2
      · refine Or.inr ⟨a :: pre, q, rest2, ids0, by rw [heq]; rfl, ?_,
          hlq, hresq, hloads, hevq⟩
        intro y hy
        rcases List.mem_cons.1 hy with rfl | hy2
        · exact hl
        · exact hpre y hy2
    · rename_i hl
      have hla : isLoaded u a = false := by
        cases hq2 : isLoaded u a
        · rfl
        · exact absurd hq2 hl
      obtain ⟨-, ids0, ids, hres, hids, hload, -, hmap, -, -, -, -, -, -,
        hmem, huniq⟩ := loadModule_spec h
      subst hids
      refine Or.inr ⟨[], a, rest, ids0, rfl,
        fun y hy => absurd hy (List.not_mem_nil y), hla, ?_, ?_, ?_⟩
      · exact hres
      · rw [hload]
        split
        · exact Or.inr rfl
        · exact Or.inl rfl
      · rw [hload]
        exact hmem

/-- **C6.**  With a transient status (neither 401 nor 410): once the bumped
failure counter reaches three, the manager dispatches failure kind
`ConsecutiveFailures` for the requested id `F` (the last entry of
`loadingModuleIds_`), abandons the current batch (the dispatch leaves the
loading list empty), advances to the next queued module (the first
not-yet-loaded id of the cancelled queue is resolved and handed to the
loader), and no loader request issued by the advance contains `F`; below the
threshold it retries `F` through `loadModule_` with the retry flag, leaving
the incremented failure counter in place. -/
theorem c6_consecutive_failures :
    (∀ fuel s status s' ev F, s.loadingModuleIds.getLast? = some F →
      status ≠ 401 → status ≠ 410 → s.consecutiveFailures + 1 ≥ 3 →
      handleLoadError fuel s status = some (s', ev) →
      (∀ fn ∈ s.errorCbs,
        Event.errorNotify fn F FailureType.consecutiveFailures ∈ ev) ∧
      (∀ ids, Event.loadRequest ids ∈ ev → F ∉ ids) ∧
      (∃ s1 ev1 ev2,
        dispatchModuleLoadFailed fuel
            { s with consecutiveFailures := s.consecutiveFailures + 1 }
            FailureType.consecutiveFailures = some (s1, ev1) ∧
        s1.loadingModuleIds = [] ∧
        loadNextModule fuel s1 = some (s', ev2) ∧ ev = ev1 ++ ev2 ∧
        (((∀ y ∈ s1.requestedModuleIdsQueue, isLoaded s y = true) ∧
            s'.loadingModuleIds = []) ∨
          (∃ pre q rest2 ids0,
            s1.requestedModuleIdsQueue = pre ++ q :: rest2 ∧
            (∀ y ∈ pre, isLoaded s y = true) ∧ isLoaded s q = false ∧
            resolveIn s fuel q = some ids0 ∧
            (s'.loadingModuleIds = ids0 ∨
              s'.loadingModuleIds = ids0.take 1) ∧
            Event.loadRequest s'.loadingModuleIds ∈ ev2)))) ∧
    (∀ fuel s status s' ev F, s.loadingModuleIds.getLast? = some F →
      status ≠ 401 → status ≠ 410 → s.consecutiveFailures + 1 < 3 →
      handleLoadError fuel s status = some (s', ev) →
      loadModule fuel
          { s with
            consecutiveFailures := s.consecutiveFailures + 1
            loadingModuleIds := [] } F true = some (s', ev) ∧
      s'.consecutiveFailures = s.consecutiveFailures + 1) := by
  constructor
  · intro fuel s status s' ev F hF h401 h410 hge h
    unfold handleLoadError at h
    dsimp only at h
    rw [if_neg h401, if_neg h410, if_pos hge] at h
    cases hdp : dispatchModuleLoadFailed fuel
        { s with consecutiveFailures := s.consecutiveFailures + 1 }
        FailureType.consecutiveFailures with
    | none => rw [hdp] at h; cases h
    | some pr1 =>
      rw [hdp] at h
      simp only [Option.bind_eq_bind, Option.some_bind] at h
      obtain ⟨s1, ev1⟩ := pr1
      dsimp only at h
      cases hln : loadNextModule fuel s1 with
      | none => rw [hln] at h; cases h
      | some pr2 =>
        rw [hln] at h
        simp only [Option.some_bind] at h
        obtain ⟨s2, ev2⟩ := pr2
        dsimp only at h
        obtain ⟨hs', hev⟩ := Prod.mk.injEq .. ▸ Option.some_inj.1 h
        subst hs' hev
        have hF0 : ({ s with consecutiveFailures :=
            s.consecutiveFailures + 1 }
            : ManagerState).loadingModuleIds.getLast? = some F := hF
        obtain ⟨deps, hfd, hq1, hui1, hld1, herr1, hlp, hgp, hcov, hnolr,
          hcause, hdf, hdb⟩ := dispatchFailed_spec hF0 hdp
        refine ⟨?_, ?_, ?_⟩
        · intro fn hfn
          exact List.mem_append_left _
            (hcov fn hfn F (googInsert_mem_self deps F))
        · intro ids hids hFin
          rcases List.mem_append.1 hids with h2 | h2
          · exact hnolr ids h2
          · have hlnB := hln
            unfold loadNextModule at hlnB
            obtain ⟨-, -, -, -, -, hreq⟩ := loadNextAux_spec hlnB
            obtain ⟨q, ids0, hqmem, hql, hres1, hids0⟩ := hreq ids h2
            have hFin0 : F ∈ ids0 := by
              rcases hids0 with rfl | rfl
              · exact hFin
              · exact List.take_subset 1 ids0 hFin
            have hres0 : resolveIn
                { s with consecutiveFailures := s.consecutiveFailures + 1 }
                fuel q = some ids0 :=
              (resolveIn_eq_of_agree hgp hlp fuel q).symm.trans hres1
            rw [hq1] at hqmem
            have hc1 : 0 < (eraseAll s.requestedModuleIdsQueue
                (googInsert deps F)).count q :=
              List.count_pos_iff.2 hqmem
            have hc2 := count_eraseAll q (googInsert deps F)
              s.requestedModuleIdsQueue
            have hc3 : s.requestedModuleIdsQueue.count q ≤ deps.count q :=
              filterDependents_count hres0 rfl hFin0 hfd
            have hc4 : deps.count q ≤ (googInsert deps F).count q := by
              unfold googInsert
              split
              · exact Nat.le_refl _
              · rw [List.count_append]
                exact Nat.le_add_right _ _
            omega
        · refine ⟨s1, ev1, ev2, rfl, hld1, hln, rfl, ?_⟩
          have hlnA := hln
          unfold loadNextModule at hlnA
          rcases loadNextAux_advance hld1 hlnA with ⟨hall, hl0, -⟩ |
            ⟨pre, q, rest2, ids0, heq, hpre, hlq, hresq, hloads, hevq⟩
          · refine Or.inl ⟨?_, hl0⟩
            intro y hy
            have hy2 : isLoaded s1 y = isLoaded s y := hlp y
            rw [← hy2]
            exact hall y hy
          · refine Or.inr ⟨pre, q, rest2, ids0, heq, ?_, ?_, ?_, hloads,
              hevq⟩
            · intro y hy
              have hy2 : isLoaded s1 y = isLoaded s y := hlp y
              rw [← hy2]
              exact hpre y hy
            · have hy2 : isLoaded s1 q = isLoaded s q := hlp q
              rw [← hy2]
              exact hlq
            · exact (show resolveIn s1 fuel q = resolveIn s fuel q from
                resolveIn_eq_of_agree hgp hlp fuel q).symm.trans hresq
  · intro fuel s status s' ev F hF h401 h410 hlt h
    unfold handleLoadError at h
    dsimp only at h
    rw [if_neg h401, if_neg h410,
      if_neg (show ¬ (s.consecutiveFailures + 1 ≥ 3) from by omega)] at h
    rw [show ({ s with consecutiveFailures := s.consecutiveFailures + 1 }
        : ManagerState).loadingModuleIds.getLast?
        = s.loadingModuleIds.getLast? from rfl, hF] at h
    dsimp only at h
    refine ⟨h, ?_⟩
    obtain ⟨-, ids0, ids, -, -, -, -, -, -, -, hcf, -, -, -, -, -⟩ :=
      loadModule_spec h
    simpa using hcf

/-- Witness for `c6_consecutive_failures`: with `X` failing and the
independent `Y` queued, the third consecutive 500 reports
`ConsecutiveFailures` for `X`, abandons the batch, and advances by
dispatching `["Y"]` (a request not containing `X`), while the first 500
retries `X` with the counter at 1. -/
theorem c6_consecutive_failures_witness :
    c6pre3.consecutiveFailures = 2 ∧
    c6pre3.loadingModuleIds.getLast? = some "X" ∧
    c6pre3.requestedModuleIdsQueue = ["Y"] ∧
    handleLoadError 20 c6pre3 500 = some (c6post3.1, c6post3.2) ∧
    Event.errorNotify 7 "X" FailureType.consecutiveFailures ∈ c6post3.2 ∧
    Event.loadRequest ["Y"] ∈ c6post3.2 ∧
    "X" ∉ (["Y"] : List ModId) ∧
    c6post3.1.loadingModuleIds = ["Y"] ∧
    c6post3.1.requestedModuleIdsQueue = [] ∧
    handleLoadError 20 c6pre1 500 = some (c6post1.1, c6post1.2) ∧
    loadModule 20
        { c6pre1 with
          consecutiveFailures := c6pre1.consecutiveFailures + 1
          loadingModuleIds := [] } "X" true = some (c6post1.1, c6post1.2) ∧
    c6post1.1.consecutiveFailures = c6pre1.consecutiveFailures + 1 := by
  have ha := c6_consecutive_failures.1 20 c6pre3 500 c6post3.1 c6post3.2 "X"
    (by decide) (by decide) (by decide) (by decide) (by decide)
  have hb := c6_consecutive_failures.2 20 c6pre1 500 c6post1.1 c6post1.2 "X"
    (by decide) (by decide) (by decide) (by decide) (by decide)
  exact ⟨by decide, by decide, by decide, by decide, ha.1 7 (by decide),
    by decide, ha.2.1 ["Y"] (by decide), by decide, by decide, by decide,
    hb.1, hb.2⟩

/-! ### Preservation of the active/idle flag invariant -/

theorem FlagsInv_of_fields {s s' : ManagerState}
    (h1 : s'.lastActive = s.lastActive)
    (h2 : s'.userLastActive = s.userLastActive)
    (h3 : s'.loadingModuleIds = s.loadingModuleIds)
    (h4 : s'.userInitiatedLoadingModuleIds
      = s.userInitiatedLoadingModuleIds)
    (hinv : FlagsInv s) : FlagsInv s' := by
  unfold FlagsInv ManagerState.isActive ManagerState.isUserActive
    at hinv ⊢
  rw [h1, h2, h3, h4]
  exact hinv

theorem FlagsInv_dispatchFailed {fuel : Nat} {s : ManagerState}
    {cause : FailureType} {s' : ManagerState} {ev : List Event}
    (h : dispatchModuleLoadFailed fuel s cause = some (s', ev)) :
    FlagsInv s' := by
  unfold dispatchModuleLoadFailed at h
  dsimp only at h
  simp only [Option.bind_eq_bind] at h
  obtain ⟨deps, hfd, h⟩ := Option.bind_eq_some.1 h
  obtain ⟨hs', hev⟩ := Prod.mk.injEq .. ▸ Option.some_inj.1 h
  subst hs' hev
  exact FlagsInv_dispatch _

theorem FlagsInv_loadModule {fuel : Nat} {s : ManagerState} {mid : ModId}
    {r : Bool} {s' : ManagerState} {ev : List Event}
    (h : loadModule fuel s mid r = some (s', ev)) : FlagsInv s' := by
  unfold loadModule at h
  split at h
  · cases h
  · simp only [Option.bind_eq_bind] at h
    obtain ⟨ids0, hres, h⟩ := Option.bind_eq_some.1 h
    obtain ⟨hs', hev⟩ := Prod.mk.injEq .. ▸ Option.some_inj.1 h
    subst hs' hev
    exact FlagsInv_dispatch _

theorem FlagsInv_loadModuleOrEnqueue {fuel : Nat} {s : ManagerState}
    {mid : ModId} {s' : ManagerState} {ev : List Event}
    (h : loadModuleOrEnqueue fuel s mid = some (s', ev)) : FlagsInv s' := by
  unfold loadModuleOrEnqueue at h
  split at h
  · exact FlagsInv_loadModule h
  · dsimp only at h
    obtain ⟨hs', hev⟩ := Prod.mk.injEq .. ▸ Option.some_inj.1 h
    subst hs' hev
    exact FlagsInv_dispatch _

theorem FlagsInv_loadNextAux {fuel : Nat} :
    ∀ {qs : List ModId} {s s' : ManagerState} {ev : List Event},
    loadNextAux fuel s qs = some (s', ev) → FlagsInv s' := by
  intro qs
  induction qs with
  | nil =>
    intro s s' ev h
    unfold loadNextAux at h
    obtain ⟨hs', hev⟩ := Prod.mk.injEq .. ▸ Option.some_inj.1 h
    subst hs' hev
    exact FlagsInv_dispatch _
  | cons q rest ih =>
    intro s s' ev h
    unfold loadNextAux at h
    split at h
    · exact ih h
    · exact FlagsInv_loadModule h

theorem FlagsInv_loadNextModule {fuel : Nat} {s s' : ManagerState}
    {ev : List Event} (h : loadNextModule fuel s = some (s', ev)) :
    FlagsInv s' := by
  unfold loadNextModule at h
  exact FlagsInv_loadNextAux h

theorem FlagsInv_setLoaded {fuel : Nat} {s : ManagerState} {mid : ModId}
    {s' : ManagerState} {ev : List Event}
    (h : setLoaded fuel s mid = some (s', ev)) : FlagsInv s' := by
  unfold setLoaded at h
  simp only [Option.bind_eq_bind] at h
  obtain ⟨i, hgi, h⟩ := Option.bind_eq_some.1 h
  split at h
  · obtain ⟨pr, hln, h⟩ := Option.bind_eq_some.1 h
    obtain ⟨s3, ev2⟩ := pr
    dsimp only at h
    obtain ⟨hs', hev⟩ := Prod.mk.injEq .. ▸ Option.some_inj.1 h
    subst hs' hev
    exact FlagsInv_dispatch _
  · obtain ⟨hs', hev⟩ := Prod.mk.injEq .. ▸ Option.some_inj.1 h
    subst hs' hev
    exact FlagsInv_dispatch _

theorem FlagsInv_handleLoadError {fuel : Nat} {s : ManagerState}
    {status : Nat} {s' : ManagerState} {ev : List Event}
    (h : handleLoadError fuel s status = some (s', ev)) : FlagsInv s' := by
  unfold handleLoadError at h
  dsimp only at h
  split at h
  · simp only [Option.bind_eq_bind] at h
    obtain ⟨pr, hdp, h⟩ := Option.bind_eq_some.1 h
    obtain ⟨s1, ev1⟩ := pr
    dsimp only at h
    obtain ⟨hs', hev⟩ := Prod.mk.injEq .. ▸ Option.some_inj.1 h
    subst hs' hev
    exact FlagsInv_of_fields rfl rfl rfl rfl
      (show FlagsInv s1 from FlagsInv_dispatchFailed hdp)
  · split at h
    · simp only [Option.bind_eq_bind] at h
      obtain ⟨pr1, hdp, h⟩ := Option.bind_eq_some.1 h
      obtain ⟨s1, ev1⟩ := pr1
      dsimp only at h
      obtain ⟨pr2, hln, h⟩ := Option.bind_eq_some.1 h
      obtain ⟨s2, ev2⟩ := pr2
      dsimp only at h
      obtain ⟨hs', hev⟩ := Prod.mk.injEq .. ▸ Option.some_inj.1 h
      subst hs' hev
      exact FlagsInv_loadNextModule hln
    · split at h
      · simp only [Option.bind_eq_bind] at h
        obtain ⟨pr1, hdp, h⟩ := Option.bind_eq_some.1 h
        obtain ⟨s1, ev1⟩ := pr1
        dsimp only at h
        obtain ⟨pr2, hln, h⟩ := Option.bind_eq_some.1 h
        obtain ⟨s2, ev2⟩ := pr2
        dsimp only at h
        obtain ⟨hs', hev⟩ := Prod.mk.injEq .. ▸ Option.some_inj.1 h
        subst hs' hev
        exact FlagsInv_loadNextModule hln
      · split at h
        · exact FlagsInv_loadModule h
        · cases h

theorem FlagsInv_handleLoadTimeout {fuel : Nat} {s : ManagerState}
    {s' : ManagerState} {ev : List Event}
    (h : handleLoadTimeout fuel s = some (s', ev)) : FlagsInv s' := by
  unfold handleLoadTimeout at h
  simp only [Option.bind_eq_bind] at h
  obtain ⟨pr1, hdp, h⟩ := Option.bind_eq_some.1 h
  obtain ⟨s1, ev1⟩ := pr1
  dsimp only at h
  obtain ⟨pr2, hln, h⟩ := Option.bind_eq_some.1 h
  obtain ⟨s2, ev2⟩ := pr2
  dsimp only at h
  obtain ⟨hs', hev⟩ := Prod.mk.injEq .. ▸ Option.some_inj.1 h
  subst hs' hev
  exact FlagsInv_loadNextModule hln

theorem FlagsInv_load {fuel : Nat} {s : ManagerState} {mid : ModId}
    {s1 : ManagerState} {ev : List Event} {d : Nat} (hinv : FlagsInv s)
    (h : load fuel s mid = some (s1, ev, d)) : FlagsInv s1 := by
  obtain ⟨-, hc⟩ := load_cases h
  rcases hc with ⟨-, rfl, -⟩ |
    ⟨s2, i2, -, -, -, -, hld, -, -, hui, hla, hula, hbr⟩
  · exact hinv
  · rcases hbr with ⟨-, rfl, -⟩ | ⟨-, hlm⟩
    · exact FlagsInv_of_fields hla hula hld hui hinv
    · exact FlagsInv_loadModuleOrEnqueue hlm

theorem FlagsInv_execOnLoad {fuel : Nat} {s : ManagerState} {mid : ModId}
    {a b c : Bool} {s1 : ManagerState} {ev : List Event} {w : Nat}
    (hinv : FlagsInv s)
    (h : execOnLoad fuel s mid a b c = some (s1, ev, w)) : FlagsInv s1 := by
  unfold execOnLoad at h
  simp only [Option.bind_eq_bind] at h
  obtain ⟨i, hgi, h⟩ := Option.bind_eq_some.1 h
  split at h
  · split at h
    · obtain ⟨hs1, -⟩ := Prod.mk.injEq .. ▸ Option.some_inj.1 h
      subst hs1
      exact hinv
    · obtain ⟨hs1, -⟩ := Prod.mk.injEq .. ▸ Option.some_inj.1 h
      subst hs1
      exact hinv
  · split at h
    · obtain ⟨sa, hc1, h⟩ := Option.bind_eq_some.1 h
      split at h
      · obtain ⟨hs1, -⟩ := Prod.mk.injEq .. ▸ Option.some_inj.1 h
        subst hs1
        exact FlagsInv_dispatch _
      · obtain ⟨hs1, -⟩ := Prod.mk.injEq .. ▸ Option.some_inj.1 h
        subst hs1
        obtain ⟨ia, hgia, rfl⟩ := registerCallbackOn_eq hc1
        exact FlagsInv_of_fields rfl rfl rfl rfl hinv
    · obtain ⟨sa, hc1, h⟩ := Option.bind_eq_some.1 h
      split at h
      · obtain ⟨hs1, -⟩ := Prod.mk.injEq .. ▸ Option.some_inj.1 h
        subst hs1
        obtain ⟨ia, hgia, rfl⟩ := registerCallbackOn_eq hc1
        exact FlagsInv_of_fields rfl rfl rfl rfl hinv
      · obtain ⟨pr, hlm, h⟩ := Option.bind_eq_some.1 h
        obtain ⟨s3, ev3⟩ := pr
        dsimp only at h
        obtain ⟨hs1, -⟩ := Prod.mk.injEq .. ▸ Option.some_inj.1 h
        subst hs1
        exact FlagsInv_loadModuleOrEnqueue hlm

theorem FlagsInv_preloadFire {fuel : Nat} {s : ManagerState} {mid : ModId}
    {s1 : ManagerState} {ev : List Event} {d : Nat} (hinv : FlagsInv s)
    (h : preloadFire fuel s mid = some (s1, ev, d)) : FlagsInv s1 := by
  unfold preloadFire at h
  simp only [Option.bind_eq_bind] at h
  obtain ⟨i, hgi, h⟩ := Option.bind_eq_some.1 h
  split at h
  · obtain ⟨hs1, -⟩ := Prod.mk.injEq .. ▸ Option.some_inj.1 h
    subst hs1
    exact hinv
  · obtain ⟨sa, hc1, h⟩ := Option.bind_eq_some.1 h
    obtain ⟨sb, hc2, h⟩ := Option.bind_eq_some.1 h
    split at h
    · obtain ⟨hs1, -⟩ := Prod.mk.injEq .. ▸ Option.some_inj.1 h
      subst hs1
      obtain ⟨ia, hgia, rfl⟩ := registerCallbackOn_eq hc1
      obtain ⟨j, hgj, rfl⟩ := registerErrbackOn_eq hc2
      exact FlagsInv_of_fields rfl rfl rfl rfl hinv
    · obtain ⟨pr, hlm, h⟩ := Option.bind_eq_some.1 h
      obtain ⟨s3, ev3⟩ := pr
      dsimp only at h
      obtain ⟨hs1, -⟩ := Prod.mk.injEq .. ▸ Option.some_inj.1 h
      subst hs1
      exact FlagsInv_loadModuleOrEnqueue hlm

/-- **C8.**  The active/idle dispatch brings the stored flags in line with
`loadingModuleIds_` / `userInitiatedLoadingModuleIds_` being non-empty and
fires exactly the callbacks registered for the event types whose flag value
flipped — in registration order, once each, and nothing when a flag is
unchanged; a fresh manager satisfies the flag invariant and every operation
of the manager preserves it. -/
theorem c8_active_idle :
    (∀ s, dispatchActiveIdleChangeIfNeeded s
      = ({ s with lastActive := s.isActive, userLastActive := s.isUserActive },
          (if s.isActive ≠ s.lastActive then
            executeCallbacks s (if s.isActive then .active else .idle)
          else []) ++
          (if s.isUserActive ≠ s.userLastActive then
            executeCallbacks s
              (if s.isUserActive then .userActive else .userIdle)
          else []))) ∧
    (∀ s t, executeCallbacks s t = (s.callbackMap t).map (Event.lifecycle t)) ∧
    (∀ infos, FlagsInv (initState infos)) ∧
    (∀ fuel stim s s' ev, FlagsInv s → stepM fuel stim s = some (s', ev) →
      FlagsInv s') := by
  refine ⟨dispatchActiveIdle_eq, fun s t => rfl, fun infos => ⟨rfl, rfl⟩, ?_⟩
  intro fuel stim s s' ev hinv h
  cases stim with
  | load mid =>
    obtain ⟨r, hld, hr⟩ := Option.map_eq_some'.1 h
    obtain ⟨r1, r2, r3⟩ := r
    obtain ⟨hs', -⟩ := Prod.mk.injEq .. ▸ hr
    subst hs'
    exact FlagsInv_load hinv hld
  | execOnLoad mid a b c =>
    obtain ⟨r, hld, hr⟩ := Option.map_eq_some'.1 h
    obtain ⟨r1, r2, r3⟩ := r
    obtain ⟨hs', -⟩ := Prod.mk.injEq .. ▸ hr
    subst hs'
    exact FlagsInv_execOnLoad hinv hld
  | preloadFire mid =>
    obtain ⟨r, hld, hr⟩ := Option.map_eq_some'.1 h
    obtain ⟨r1, r2, r3⟩ := r
    obtain ⟨hs', -⟩ := Prod.mk.injEq .. ▸ hr
    subst hs'
    exact FlagsInv_preloadFire hinv hld
  | setLoaded mid => exact FlagsInv_setLoaded h
  | loadError status => exact FlagsInv_handleLoadError h
  | loadTimeout => exact FlagsInv_handleLoadTimeout h
  | setBatchModeEnabled b =>
    obtain ⟨hs', -⟩ := Prod.mk.injEq .. ▸ Option.some_inj.1 h
    subst hs'
    exact FlagsInv_of_fields rfl rfl rfl rfl hinv
  | registerCallback t fn =>
    obtain ⟨hs', -⟩ := Prod.mk.injEq .. ▸ Option.some_inj.1 h
    subst hs'
    cases t <;> exact FlagsInv_of_fields rfl rfl rfl rfl hinv

/-- Witness for `c8_active_idle`: the flag invariant of a fresh
single-module manager, and its preservation across a batch-mode toggle. -/
theorem c8_active_idle_witness :
    FlagsInv (initState [("A", [])]) ∧
    FlagsInv { initState [("A", [])] with batchModeEnabled := true } := by
  constructor
  · exact c8_active_idle.2.2.1 [("A", [])]
  · exact c8_active_idle.2.2.2 20 (.setBatchModeEnabled true)
      (initState [("A", [])])
      { initState [("A", [])] with batchModeEnabled := true } []
      ⟨rfl, rfl⟩ rfl

/-! ### Preservation of the loading-batch invariant (C5) -/

theorem erase_eq_nil_cases {l : List ModId} {a : ModId}
    (h : l.erase a = []) : l = [] ∨ l = [a] := by
  cases l with
  | nil => exact Or.inl rfl
  | cons b t =>
    rw [List.erase_cons] at h
    by_cases hb : b = a
    · rw [if_pos (beq_iff_eq.2 hb)] at h
      subst hb
      subst h
      exact Or.inr rfl
    · rw [if_neg (by simpa using hb)] at h
      cases h

theorem isLoaded_update_ne {s : ManagerState} {mid x : ModId}
    {i : ModuleInfo} (h : x ≠ mid) :
    isLoaded (updateInfo s mid i) x = isLoaded s x := by
  unfold isLoaded
  rw [getInfo_update_ne h]

theorem isLoaded_update_self_loaded {s : ManagerState} {mid : ModId}
    {i j : ModuleInfo} (hgi : getInfo s mid = some j) (hl : i.loaded = true) :
    isLoaded (updateInfo s mid i) mid = true := by
  unfold isLoaded
  rw [getInfo_update_self hgi]
  exact hl

theorem LoadingInv_dispatchActiveIdle (s : ManagerState)
    (hinv : LoadingInv s) :
    LoadingInv (dispatchActiveIdleChangeIfNeeded s).1 := by
  rw [dispatchActiveIdle_state]
  exact ⟨hinv.1, fun x hx => hinv.2 x hx⟩

/-- Characterization of an advance over the queue started with an empty
loading list: afterwards either nothing is loading, or the loading batch is
the (possibly split) resolution of some not-yet-loaded id, the module map is
untouched, and every loader request carries exactly the new loading batch. -/
theorem loadNextAux_loading {fuel : Nat} :
    ∀ {qs : List ModId} {u s' : ManagerState} {ev : List Event},
    u.loadingModuleIds = [] →
    loadNextAux fuel u qs = some (s', ev) →
    ((s'.loadingModuleIds = [] ∨
      ∃ q ids0, isLoaded u q = false ∧ resolveIn u fuel q = some ids0 ∧
        (s'.loadingModuleIds = ids0 ∨ s'.loadingModuleIds = ids0.take 1)) ∧
     (∀ x, isLoaded s' x = isLoaded u x) ∧
     (∀ ids, Event.loadRequest ids ∈ ev → ids = s'.loadingModuleIds)) := by
  intro qs
  induction qs with
  | nil =>
    intro u s' ev hu h
    unfold loadNextAux at h
    obtain ⟨hs', hev⟩ := Prod.mk.injEq .. ▸ Option.some_inj.1 h
    subst hs' hev
    rw [dispatchActiveIdle_state]
    refine ⟨Or.inl hu, fun x => rfl, ?_⟩
    intro ids hids
    obtain ⟨t, fn, hfn⟩ := dispatchActiveIdle_events_shape _ _ hids
    cases hfn
  | cons q rest ih =>
    intro u s' ev hu h
    unfold loadNextAux at h
    split at h
    · exact ih hu h
    · rename_i hl
      have hlq : isLoaded u q = false := by
        cases hq2 : isLoaded u q
        · rfl
        · exact absurd hq2 hl
      obtain ⟨-, ids0, ids, hres, hids, hload, -, hmap, -, -, -, -, -, -,
        -, huniq⟩ := loadModule_spec h
      subst hids
      refine ⟨Or.inr ⟨q, ids0, hlq, ?_, ?_⟩, ?_, ?_⟩
      · exact hres
      · rw [hload]
        split
        · exact Or.inr rfl
        · exact Or.inl rfl
      · intro x
        exact isLoaded_of_map_eq hmap x
      · intro ids2 hids2
        rw [huniq ids2 hids2]
        exact hload.symm

/-- One C5 stimulus preserves the loading-batch invariant, and every id list
handed to the loader during the step is duplicate free, consists of ids not
yet loaded before the step, and is disjoint from the loading batch in flight
before the step. -/
theorem LoadingInvStep {fuel : Nat} {stim : Stimulus} {s s' : ManagerState}
    {ev : List Event} (hC5 : stim.isC5) (hinv : LoadingInv s)
    (h : stepM fuel stim s = some (s', ev)) :
    LoadingInv s' ∧
    ∀ ids, Event.loadRequest ids ∈ ev →
      ids.Nodup ∧ (∀ x ∈ ids, isLoaded s x = false) ∧
      (∀ x ∈ ids, x ∉ s.loadingModuleIds) := by
  cases stim with
  | execOnLoad mid a b c => exact hC5.elim
  | preloadFire mid => exact hC5.elim
  | loadError status => exact hC5.elim
  | loadTimeout => exact hC5.elim
  | registerCallback t fn => exact hC5.elim
  | setBatchModeEnabled b =>
    obtain ⟨hs', hev⟩ := Prod.mk.injEq .. ▸ Option.some_inj.1 h
    subst hs' hev
    exact ⟨hinv, fun ids hids => absurd hids (List.not_mem_nil _)⟩
  | load mid =>
    obtain ⟨r, hld, hr⟩ := Option.map_eq_some'.1 h
    obtain ⟨r1, r2, r3⟩ := r
    obtain ⟨hs', hev⟩ := Prod.mk.injEq .. ▸ hr
    subst hs' hev
    obtain ⟨-, hc⟩ := load_cases hld
    rcases hc with ⟨-, rfl, rfl⟩ |
      ⟨s2, i2, hnl, -, -, hiso, hld2, hq2, hbm2, hui2, -, -, hbr⟩
    · refine ⟨hinv, ?_⟩
      intro ids hids
      simp at hids
    · rcases hbr with ⟨-, rfl, rfl⟩ | ⟨hml, hlm⟩
      · refine ⟨⟨?_, ?_⟩, ?_⟩
        · rw [hld2]
          exact hinv.1
        · intro x hx
          rw [hiso x]
          exact hinv.2 x (by rw [← hld2]; exact hx)
        · intro ids hids
          exact absurd hids (List.not_mem_nil _)
      · rcases loadModuleOrEnqueue_cases hlm with ⟨hempty, hlmod⟩ |
          ⟨-, hldE, hmapE, -, hshape⟩
        · obtain ⟨hnl2, ids0, ids, hres, hids, hload, -, hmap, -, -, -, -,
            -, -, -, huniq⟩ := loadModule_spec hlmod
          have hsl : s.loadingModuleIds = [] := by
            rw [← hld2]
            exact hempty
          have hnodup : ids0.Nodup := resolve_nodup hres
          have hunl : ∀ x ∈ ids0, isLoaded s2 x = false := by
            intro x hx
            exact resolve_not_loaded hnl2 hres x hx
          have hidssub : ∀ x ∈ ids, x ∈ ids0 := by
            intro x hx
            rw [hids] at hx
            split at hx
            · exact List.take_subset 1 ids0 hx
            · exact hx
          have hidsnodup : ids.Nodup := by
            rw [hids]
            split
            · exact hnodup.sublist (List.take_sublist 1 ids0)
            · exact hnodup
          refine ⟨⟨?_, ?_⟩, ?_⟩
          · rw [hload]
            exact hidsnodup
          · intro x hx
            rw [hload] at hx
            rw [isLoaded_of_map_eq hmap x]
            exact hunl x (hidssub x hx)
          · intro ids2 hids2
            obtain rfl : ids2 = ids := huniq ids2 hids2
            refine ⟨hidsnodup, ?_, ?_⟩
            · intro x hx
              rw [← hiso x]
              exact hunl x (hidssub x hx)
            · intro x hx
              rw [hsl]
              exact List.not_mem_nil x
        · refine ⟨⟨?_, ?_⟩, ?_⟩
          · rw [hldE, hld2]
            exact hinv.1
          · intro x hx
            rw [hldE, hld2] at hx
            rw [isLoaded_of_map_eq hmapE x, hiso x]
            exact hinv.2 x hx
          · intro ids hids
            obtain ⟨t, fn, hfn⟩ := hshape _ hids
            cases hfn
  | setLoaded mid =>
    unfold stepM at h
    unfold setLoaded at h
    simp only [Option.bind_eq_bind] at h
    obtain ⟨i, hgi, h⟩ := Option.bind_eq_some.1 h
    split at h
    · rename_i hie
      obtain ⟨pr, hln, h⟩ := Option.bind_eq_some.1 h
      obtain ⟨s3, ev2⟩ := pr
      dsimp only at h
      obtain ⟨hs', hev⟩ := Prod.mk.injEq .. ▸ Option.some_inj.1 h
      subst hs' hev
      unfold loadNextModule at hln
      obtain ⟨hcase, hiso3, hreq⟩ :=
        loadNextAux_loading (isEmpty_true_iff.1 hie) hln
      have hinv3 : LoadingInv s3 := by
        constructor
        · rcases hcase with h0 | ⟨q, ids0, hlq, hres0, h1 | h1⟩
          · rw [h0]
            exact List.nodup_nil
          · rw [h1]
            exact resolve_nodup hres0
          · rw [h1]
            exact (resolve_nodup hres0).sublist (List.take_sublist 1 ids0)
        · intro x hx
          rcases hcase with h0 | ⟨q, ids0, hlq, hres0, h1 | h1⟩
          · rw [h0] at hx
            cases hx
          · rw [h1] at hx
            rw [hiso3 x]
            exact resolve_not_loaded hlq hres0 x hx
          · rw [h1] at hx
            rw [hiso3 x]
            exact resolve_not_loaded hlq hres0 x (List.take_subset 1 ids0 hx)
      refine ⟨LoadingInv_dispatchActiveIdle _ hinv3, ?_⟩
      intro ids hids
      rcases List.mem_append.1 hids with h2 | h2
      · rcases List.mem_append.1 h2 with h3 | h3
        · rcases List.mem_append.1 h3 with h4 | h4
          · obtain ⟨tok, -, hfn⟩ := List.mem_map.1 h4
            cases hfn
          · obtain ⟨tok, -, hfn⟩ := List.mem_map.1 h4
            cases hfn
        · obtain rfl : ids = s3.loadingModuleIds := hreq ids h3
          refine ⟨hinv3.1, ?_, ?_⟩
          · intro x hx
            have hxf : isLoaded s3 x = false := hinv3.2 x hx
            rw [hiso3 x] at hxf
            have hxne : x ≠ mid := by
              intro hc
              subst hc
              rw [isLoaded_update_self_loaded hgi rfl] at hxf
              cases hxf
            rw [isLoaded_update_ne hxne] at hxf
            exact hxf
          · intro x hx
            have hxf : isLoaded s3 x = false := hinv3.2 x hx
            rw [hiso3 x] at hxf
            have hxne : x ≠ mid := by
              intro hc
              subst hc
              rw [isLoaded_update_self_loaded hgi rfl] at hxf
              cases hxf
            have herase : (s.loadingModuleIds.erase mid).isEmpty = true := hie
            rcases erase_eq_nil_cases (isEmpty_true_iff.1 herase) with h5 | h5
            · rw [h5]
              exact List.not_mem_nil x
            · rw [h5]
              intro hc
              exact hxne (by simpa using hc)
      · obtain ⟨t, fn, hfn⟩ := dispatchActiveIdle_events_shape _ _ h2
        cases hfn
    · obtain ⟨hs', hev⟩ := Prod.mk.injEq .. ▸ Option.some_inj.1 h
      subst hs' hev
      refine ⟨?_, ?_⟩
      · apply LoadingInv_dispatchActiveIdle
        constructor
        · show (s.loadingModuleIds.erase mid).Nodup
          exact hinv.1.erase mid
        · intro x hx
          have hx' : x ∈ s.loadingModuleIds.erase mid := hx
          have hxne : x ≠ mid := ((hinv.1.mem_erase_iff).1 hx').1
          have hxs : x ∈ s.loadingModuleIds := ((hinv.1.mem_erase_iff).1 hx').2
          rw [isLoaded_update_ne hxne]
          exact hinv.2 x hxs
      · intro ids hids
        rcases List.mem_append.1 hids with h2 | h2
        · rcases List.mem_append.1 h2 with h4 | h4
          · obtain ⟨tok, -, hfn⟩ := List.mem_map.1 h4
            cases hfn
          · obtain ⟨tok, -, hfn⟩ := List.mem_map.1 h4
            cases hfn
        · obtain ⟨t, fn, hfn⟩ := dispatchActiveIdle_events_shape _ _ h2
          cases hfn

/-- **C5** (amended).  From any state reachable by `load` / `setLoaded` /
batch-mode stimuli, the in-flight loading batch is duplicate free and
entirely not-yet-loaded, and every id list handed to the loader by a further
such stimulus is duplicate free, consists of ids not loaded before the step,
and is disjoint from the loading batch in flight before the step.  The
original claim is stronger — it also forbids dispatching an id still present
in the queue — and that part is false (see `c5_counterexample`): advancing
past a just-loaded module resolves and dispatches a queued id without
consulting the queue. -/
theorem c5_amended {fuel : Nat} {s : ManagerState}
    (hs : ReachableC5 fuel s) :
    LoadingInv s ∧
    ∀ stim s' ev, stim.isC5 → stepM fuel stim s = some (s', ev) →
      ∀ ids, Event.loadRequest ids ∈ ev →
        ids.Nodup ∧ (∀ x ∈ ids, isLoaded s x = false) ∧
        (∀ x ∈ ids, x ∉ s.loadingModuleIds) := by
  induction hs with
  | init infos =>
    refine ⟨⟨List.nodup_nil, ?_⟩, ?_⟩
    · intro x hx
      exact absurd hx (List.not_mem_nil x)
    · intro stim s' ev hC5 h
      exact (LoadingInvStep hC5
        ⟨List.nodup_nil, fun x hx => absurd hx (List.not_mem_nil x)⟩ h).2
  | step hprev hC5 hstep ih =>
    have hinv2 := (LoadingInvStep hC5 ih.1 hstep).1
    exact ⟨hinv2, fun stim s' ev hC5a h => (LoadingInvStep hC5a hinv2 h).2⟩

/-- **C5** (counterexample to the spec sentence).  `c5pre` is reachable by
three `load` calls (`X` in flight, `B` and `C` queued, `B` depending on
`C`).  `setLoaded("X")` then advances to `B`, whose resolution dispatches
`["C"]` to the loader while `"C"` is still in the queue — both before the
step and after it. -/
theorem c5_counterexample :
    ReachableC5 20 c5pre ∧
    Stimulus.isC5 (.setLoaded "X") ∧
    c5pre.requestedModuleIdsQueue = ["B", "C"] ∧
    "C" ∈ c5pre.requestedModuleIdsQueue ∧
    stepM 20 (.setLoaded "X") c5pre = some (c5post.1, c5post.2) ∧
    Event.loadRequest ["C"] ∈ c5post.2 ∧
    "C" ∈ c5post.1.requestedModuleIdsQueue ∧
    c5post.1.loadingModuleIds = ["C"] := by
  refine ⟨?_, True.intro, by decide, by decide, by decide, by decide,
    by decide, by decide⟩
  have h0 : ReachableC5 20 c5init := ReachableC5.init _
  have h1 : ReachableC5 20 c5mid1 := ReachableC5.step h0
    (show Stimulus.isC5 (.load "X") from True.intro)
    (show stepM 20 (.load "X") c5init
      = some (c5mid1, [Event.loadRequest ["X"]]) from by decide)
  have h2 : ReachableC5 20 c5mid2 := ReachableC5.step h1
    (show Stimulus.isC5 (.load "B") from True.intro)
    (show stepM 20 (.load "B") c5mid1 = some (c5mid2, []) from by decide)
  exact ReachableC5.step h2
    (show Stimulus.isC5 (.load "C") from True.intro)
    (show stepM 20 (.load "C") c5mid2 = some (c5pre, []) from by decide)

/-- Witness for `c5_amended` at a freshly configured manager. -/
theorem c5_amended_witness :
    LoadingInv (initState [("X", [])]) :=
  (@c5_amended 20 (initState [("X", [])]) (ReachableC5.init _)).1

end GoogModule
